import Mathlib

/-!
Shallow embedding of the GitHub pull-request synchronization pipeline of the
dotflox repository (convex `github.ts` sync family: `syncPullRequestCore`,
`pruneClosedPullRequestsForRepo`, `syncRepoPullRequestsFromGithub`, and the
change-detection block inside the latter), together with proofs of the
specification claims about it.

The Convex database is modelled as explicit lists of rows per table plus a
fresh-id counter.  `ctx.db.insert` appends a row carrying the next fresh id;
`ctx.db.patch` maps over the table replacing the row with the matching id,
updating exactly the fields listed in the source patch call; `.unique()`
returns `none` on no match, the row on exactly one match, and throws
(modelled as `Except.error`) on more than one match.  Fallible code lives in
`Except String`.
-/

namespace Dotflox

/-- Validated PR state accepted by the sync mutation's validator
(`v.union(v.literal("open"), v.literal("closed"))`). -/
inductive PrState where
  | opened
  | closed
deriving DecidableEq, Repr

/-- Stored pull-request status (`"open" | "closed" | "merged"` in the schema). -/
inductive PrStatus where
  | opened
  | closed
  | merged
deriving DecidableEq, Repr

/-- A row of the `repos` table (schema.ts). -/
structure RepoRow where
  id : Nat
  ownerUserId : Nat
  githubRepoId : String
  repoOwner : String
  repoName : String
  description : Option String
  url : String
  defaultBranch : String
  githubAccessToken : Option String
  createdAt : Nat
  updatedAt : Nat
deriving DecidableEq, Repr

/-- A row of the `contributors` table (schema.ts). -/
structure Contributor where
  id : Nat
  githubUserId : String
  login : String
  name : Option String
  avatarUrl : Option String
  createdAt : Nat
  updatedAt : Nat
deriving DecidableEq, Repr

/-- A row of the `pullRequests` table (schema.ts). -/
structure PRRow where
  id : Nat
  repoId : Nat
  authorContributorId : Nat
  githubPrId : String
  prNumber : Nat
  title : String
  body : Option String
  status : PrStatus
  prAnalyzerThreadId : Option String
  createdAt : Nat
  mergedAt : Option Nat
  closedAt : Option Nat
  lastSyncedAt : Nat
deriving DecidableEq, Repr

/-- A row of the `repoContributors` table (schema.ts).  The `role` and
`seniority` literal unions are modelled as strings; the sync code only ever
stores `undefined` (`none`) there. -/
structure RepoContributorRow where
  id : Nat
  repoId : Nat
  contributorId : Nat
  role : Option String
  seniority : Option String
  prCount : Nat
  linesChanged : Nat
  mainAreas : Option (List String)
  createdAt : Nat
  updatedAt : Nat
deriving DecidableEq, Repr

/-- The Convex store restricted to the tables the sync pipeline touches,
plus a fresh surrogate-id counter. -/
structure DB where
  repos : List RepoRow
  contributors : List Contributor
  pullRequests : List PRRow
  repoContributors : List RepoContributorRow
  nextId : Nat
deriving DecidableEq, Repr

/-- The `repo` component of `syncPullRequestArgs`. -/
structure RepoArgs where
  githubRepoId : String
  owner : String
  name : String
  description : Option String
  url : String
  defaultBranch : String
deriving DecidableEq, Repr

/-- The `author` component of `syncPullRequestArgs`. -/
structure AuthorArgs where
  githubUserId : String
  login : String
  name : Option String
  avatarUrl : Option String
deriving DecidableEq, Repr

/-- The `pullRequest` component of `syncPullRequestArgs`. -/
structure PrArgs where
  githubPrId : String
  number : Nat
  title : String
  body : Option String
  state : PrState
  merged : Bool
  createdAt : Nat
  mergedAt : Option Nat
  closedAt : Option Nat
deriving DecidableEq, Repr

/-- The `stats` component of `syncPullRequestArgs`. -/
structure StatsArgs where
  additions : Nat
  deletions : Nat
  changedFiles : Nat
deriving DecidableEq, Repr

/-- `SyncPullRequestArgs` from github.ts. -/
structure SyncArgs where
  repo : RepoArgs
  author : AuthorArgs
  pullRequest : PrArgs
  stats : StatsArgs
  syncedAt : Nat
deriving DecidableEq, Repr

/-- The value returned by a successful, non-skipped `syncPullRequestCore`. -/
structure SyncResult where
  pullRequestId : Nat
  contributorId : Nat
  repoId : Nat
deriving DecidableEq, Repr

/-- JavaScript nullish coalescing `a ?? b` on optional values. -/
def jsOr (a b : Option α) : Option α :=
  match a with
  | some x => some x
  | none => b

/-- Convex `.withIndex(...).unique()`: `none` when no row matches, the row
when exactly one matches, an error (thrown in the source) otherwise. -/
def uniqueBy (p : α → Bool) (l : List α) : Except String (Option α) :=
  match l.filter p with
  | [] => Except.ok none
  | [a] => Except.ok (some a)
  | _ => Except.error "unique: more than one matching row"

/-- The contributor patch of syncPullRequestCore (github.ts lines 106-111):
`login` is overwritten, `name` and `avatarUrl` get `fetched ?? stored`,
`updatedAt` is set to `syncedAt`; other fields are untouched. -/
def patchContributor (author : AuthorArgs) (syncedAt : Nat) (c : Contributor) : Contributor :=
  { c with
    login := author.login
    name := jsOr author.name c.name
    avatarUrl := jsOr author.avatarUrl c.avatarUrl
    updatedAt := syncedAt }

/-- The contributor row inserted on first sight (github.ts lines 96-103). -/
def freshContributor (author : AuthorArgs) (syncedAt nid : Nat) : Contributor :=
  { id := nid
    githubUserId := author.githubUserId
    login := author.login
    name := author.name
    avatarUrl := author.avatarUrl
    createdAt := syncedAt
    updatedAt := syncedAt }

/-- Contributor upsert block of syncPullRequestCore (github.ts lines 90-116),
acting on the `contributors` table and the fresh-id counter.  Returns the
updated table, counter, and the `_id` the source's local `contributor`
variable carries afterwards. -/
def upsertContributorT (author : AuthorArgs) (syncedAt : Nat) (cs : List Contributor)
    (nextId : Nat) : Except String (List Contributor × Nat × Nat) := do
  let found ← uniqueBy (fun c => c.githubUserId == author.githubUserId) cs
  match found with
  | none =>
      Except.ok (cs ++ [freshContributor author syncedAt nextId], nextId + 1, nextId)
  | some c =>
      Except.ok
        (cs.map (fun x => if x.id == c.id then patchContributor author syncedAt c else x),
          nextId, c.id)

/-- The status derivation of syncPullRequestCore (github.ts lines 125-130):
merged wins, otherwise the raw state decides. -/
def prStatusOf (p : PrArgs) : PrStatus :=
  if p.merged then PrStatus.merged
  else match p.state with
    | PrState.opened => PrStatus.opened
    | PrState.closed => PrStatus.closed

/-- `basePrDoc` applied as a patch to an existing pullRequests row
(github.ts lines 132-151): every `basePrDoc` field is overwritten; `id` and
`prAnalyzerThreadId` (absent from `basePrDoc`) are preserved. -/
def patchPRRow (repoId contributorId : Nat) (p : PrArgs) (syncedAt : Nat) (r : PRRow) : PRRow :=
  { r with
    repoId := repoId
    authorContributorId := contributorId
    githubPrId := p.githubPrId
    prNumber := p.number
    title := p.title
    body := p.body
    status := prStatusOf p
    createdAt := p.createdAt
    mergedAt := p.mergedAt
    closedAt := p.closedAt
    lastSyncedAt := syncedAt }

/-- The pullRequests row inserted when the (repoId, prNumber) key is new:
`basePrDoc` (github.ts lines 132-144) with `prAnalyzerThreadId` absent. -/
def freshPRRow (repoId contributorId : Nat) (p : PrArgs) (syncedAt nid : Nat) : PRRow :=
  { id := nid
    repoId := repoId
    authorContributorId := contributorId
    githubPrId := p.githubPrId
    prNumber := p.number
    title := p.title
    body := p.body
    status := prStatusOf p
    prAnalyzerThreadId := none
    createdAt := p.createdAt
    mergedAt := p.mergedAt
    closedAt := p.closedAt
    lastSyncedAt := syncedAt }

/-- Pull-request upsert block of syncPullRequestCore (github.ts lines
118-152), acting on the `pullRequests` table keyed by (repoId, prNumber). -/
def upsertPRT (repoId contributorId : Nat) (p : PrArgs) (syncedAt : Nat) (prs : List PRRow)
    (nextId : Nat) : Except String (List PRRow × Nat × Nat) := do
  let found ← uniqueBy (fun r => r.repoId == repoId && r.prNumber == p.number) prs
  match found with
  | none =>
      Except.ok (prs ++ [freshPRRow repoId contributorId p syncedAt nextId], nextId + 1, nextId)
  | some e =>
      Except.ok
        (prs.map (fun x => if x.id == e.id then patchPRRow repoId contributorId p syncedAt e else x),
          nextId, e.id)

/-- The `byAuthor` count used for `prCount` (github.ts lines 162-168 and
182-188): it filters on the author only, with no repository restriction. -/
def countPrsByAuthor (contributorId : Nat) (prs : List PRRow) : Nat :=
  (prs.filter (fun p => p.authorContributorId == contributorId)).length

/-- The repoContributors row inserted on first sight of the (repo,
contributor) pair (github.ts lines 170-180). -/
def freshRepoContributor (repoId contributorId : Nat) (stats : StatsArgs) (syncedAt : Nat)
    (prs : List PRRow) (nid : Nat) : RepoContributorRow :=
  { id := nid
    repoId := repoId
    contributorId := contributorId
    role := none
    seniority := none
    prCount := countPrsByAuthor contributorId prs
    linesChanged := stats.additions + stats.deletions
    mainAreas := none
    createdAt := syncedAt
    updatedAt := syncedAt }

/-- The repoContributors patch (github.ts lines 190-194): `prCount`,
`linesChanged` and `updatedAt` are overwritten, everything else kept. -/
def patchRepoContributor (stats : StatsArgs) (syncedAt : Nat) (prs : List PRRow)
    (contributorId : Nat) (rc : RepoContributorRow) : RepoContributorRow :=
  { rc with
    prCount := countPrsByAuthor contributorId prs
    linesChanged := stats.additions + stats.deletions
    updatedAt := syncedAt }

/-- Repository-contributor link upsert block of syncPullRequestCore
(github.ts lines 154-195).  `prs` is the pullRequests table as of after the
PR upsert, since the count queries run after it in the same mutation. -/
def upsertRepoContributorT (repoId contributorId : Nat) (stats : StatsArgs) (syncedAt : Nat)
    (prs : List PRRow) (rcs : List RepoContributorRow) (nextId : Nat) :
    Except String (List RepoContributorRow × Nat) := do
  let found ← uniqueBy (fun rc => rc.repoId == repoId && rc.contributorId == contributorId) rcs
  match found with
  | none =>
      Except.ok (rcs ++ [freshRepoContributor repoId contributorId stats syncedAt prs nextId],
        nextId + 1)
  | some rc =>
      Except.ok
        (rcs.map (fun x =>
            if x.id == rc.id then patchRepoContributor stats syncedAt prs contributorId rc
            else x),
          nextId)

/-- `syncPullRequestCore` (github.ts lines 77-198).  Returns the updated
store and `none` when the sync was skipped because the repository is not
locally known (the silent no-op branch at lines 85-88), `some` with the
affected row ids otherwise. -/
def syncPullRequestCore (args : SyncArgs) (db : DB) :
    Except String (DB × Option SyncResult) := do
  let repoRow? ← uniqueBy (fun r => r.githubRepoId == args.repo.githubRepoId) db.repos
  match repoRow? with
  | none => Except.ok (db, none)
  | some repoRow => do
      let (cs, nid1, contributorId) ←
        upsertContributorT args.author args.syncedAt db.contributors db.nextId
      let (prs, nid2, pullRequestId) ←
        upsertPRT repoRow.id contributorId args.pullRequest args.syncedAt db.pullRequests nid1
      let (rcs, nid3) ←
        upsertRepoContributorT repoRow.id contributorId args.stats args.syncedAt prs
          db.repoContributors nid2
      Except.ok
        ({ db with
            contributors := cs
            pullRequests := prs
            repoContributors := rcs
            nextId := nid3 },
          some { pullRequestId := pullRequestId, contributorId := contributorId,
                 repoId := repoRow.id })

/-- `pruneClosedPullRequestsForRepo` (github.ts lines 362-381): delete every
pullRequests row of the repository whose number is not in `openPrNumbers`. -/
def pruneClosedPullRequestsForRepo (repoId : Nat) (openPrNumbers : List Nat) (db : DB) : DB :=
  { db with
    pullRequests :=
      db.pullRequests.filter
        (fun pr => !(pr.repoId == repoId) || openPrNumbers.contains pr.prNumber) }

/-- The change-detection block of syncRepoPullRequestsFromGithub (github.ts
lines 310-330).  JavaScript `Set`s built from the two number lists are
modelled by `dedup`: `size` is the dedup length, `has` is list membership. -/
def computeChanged (existingNumbers openPrNumbers : List Nat) : Bool :=
  let existingSet := existingNumbers.dedup
  let openSet := openPrNumbers.dedup
  if existingSet.length != openSet.length then true
  else if openSet.any (fun n => !(existingSet.contains n)) then true
  else existingSet.any (fun n => !(openSet.contains n))

/-- Author identity of a fetched pull request (`fullPr.user` in github.ts). -/
structure GithubUser where
  id : Nat
  login : String
  name : Option String
  avatar_url : Option String
deriving DecidableEq, Repr

/-- A pull request as returned by the GitHub client.  `state` is the raw
string; timestamps are already epoch milliseconds (`new Date(s).getTime()`
is folded into the model). -/
structure GithubPR where
  id : Nat
  number : Nat
  title : Option String
  body : Option String
  state : String
  created_at : Nat
  merged_at : Option Nat
  closed_at : Option Nat
  user : Option GithubUser
  additions : Option Nat
  deletions : Option Nat
  changed_files : Option Nat
deriving DecidableEq, Repr

/-- The GitHub read API as seen by one sync cycle: the `listPullRequests`
response and the `getPullRequest` detail responses, fixed for the cycle. -/
structure GithubApi where
  listPullRequests : List GithubPR
  getPullRequest : Nat → GithubPR

/-- The argument object built for `syncPullRequestFromGithub` inside
syncRepoPullRequestsFromGithub (github.ts lines 257-293), including all the
optional-chaining defaults (`?? ""`, `?? "unknown"`, `?? undefined`, `?? 0`,
`merged: Boolean(fullPr.merged_at)`). -/
def buildSyncArgs (repo : RepoRow) (fullPr : GithubPR) (syncedAt : Nat) : SyncArgs :=
  { repo :=
      { githubRepoId := repo.githubRepoId
        owner := repo.repoOwner
        name := repo.repoName
        description := repo.description
        url := repo.url
        defaultBranch := repo.defaultBranch }
    author :=
      { githubUserId :=
          match fullPr.user with
          | some u => toString u.id
          | none => ""
        login := (fullPr.user.map GithubUser.login).getD "unknown"
        name := fullPr.user.bind GithubUser.name
        avatarUrl := fullPr.user.bind GithubUser.avatar_url }
    pullRequest :=
      { githubPrId := toString fullPr.id
        number := fullPr.number
        title := fullPr.title.getD ""
        body := fullPr.body
        state := if fullPr.state == "open" then PrState.opened else PrState.closed
        merged := fullPr.merged_at.isSome
        createdAt := fullPr.created_at
        mergedAt := fullPr.merged_at
        closedAt := fullPr.closed_at }
    stats :=
      { additions := fullPr.additions.getD 0
        deletions := fullPr.deletions.getD 0
        changedFiles := fullPr.changed_files.getD 0 }
    syncedAt := syncedAt }

/-- The reconcile loop of syncRepoPullRequestsFromGithub (github.ts lines
250-294): for each kept PR, fetch its detail and run the sync mutation. -/
def syncAll (repo : RepoRow) (github : GithubApi) (syncedAt : Nat) :
    List GithubPR → DB → Except String DB
  | [], db => Except.ok db
  | pr :: rest, db => do
      let fullPr := github.getPullRequest pr.number
      let (db1, _) ← syncPullRequestCore (buildSyncArgs repo fullPr syncedAt) db
      syncAll repo github syncedAt rest db1

/-- The open-filtered fetched PR list (`allPullRequests.filter(pr =>
pr.state === "open")`, github.ts line 247). -/
def openPullRequests (github : GithubApi) : List GithubPR :=
  github.listPullRequests.filter (fun pr => pr.state == "open")

/-- The fetched open-PR numbers (`pullRequests.map(pr => pr.number)`,
github.ts lines 297-300). -/
def openPrNumbersOf (github : GithubApi) : List Nat :=
  (openPullRequests github).map GithubPR.number

/-- The pre-cycle stored PR numbers for a repository, from
`listPullRequestsForRepo` (app.ts lines 447-455) mapped to `prNumber`
(github.ts lines 230-236). -/
def existingPrNumbers (db : DB) (repoId : Nat) : List Nat :=
  (db.pullRequests.filter (fun pr => pr.repoId == repoId)).map PRRow.prNumber

/-- `syncRepoPullRequestsFromGithub` (github.ts lines 214-341) as a function
of the store, the GitHub responses, and the cycle timestamp.  The second
component lists the repo ids for which `runFullAnalysisWorkflow` was
scheduled (the `ctx.scheduler.runAfter` call at lines 332-339). -/
def syncRepoPullRequestsFromGithub (repoId : Nat) (github : GithubApi) (now : Nat) (db : DB) :
    Except String (DB × List Nat) :=
  match db.repos.find? (fun r => r.id == repoId) with
  | none => Except.ok (db, [])
  | some repo =>
      match repo.githubAccessToken with
      | none => Except.ok (db, [])
      | some _ => do
          let existingNumbers := existingPrNumbers db repoId
          let pullRequests := openPullRequests github
          let db1 ← syncAll repo github now pullRequests db
          let openPrNumbers := pullRequests.map GithubPR.number
          let db2 := pruneClosedPullRequestsForRepo repoId openPrNumbers db1
          let changed := computeChanged existingNumbers openPrNumbers
          Except.ok (db2, if changed then [repoId] else [])

/-- Per-table well-formedness of the surrogate ids: no two rows share an id
and every id is below the fresh-id counter.  Convex guarantees this for the
real `_id` values. -/
def TableOk (ids : List Nat) (next : Nat) : Prop :=
  ids.Nodup ∧ ∀ i ∈ ids, i < next

/-- Store-level id well-formedness for the three tables the sync writes. -/
def WFIds (db : DB) : Prop :=
  TableOk (db.contributors.map Contributor.id) db.nextId ∧
    TableOk (db.pullRequests.map PRRow.id) db.nextId ∧
    TableOk (db.repoContributors.map RepoContributorRow.id) db.nextId

/-! ### Generic lemmas about the store primitives -/

/-- Nullish coalescing is idempotent on the left. -/
theorem jsOr_idem (a b : Option α) : jsOr a (jsOr a b) = jsOr a b := by
  cases a <;> rfl

/-- Nullish coalescing of a value with itself. -/
theorem jsOr_self (a : Option α) : jsOr a a = a := by
  cases a <;> rfl

/-- `a ?? b` keeps `b` when `a` is absent. -/
theorem jsOr_none (b : Option α) : jsOr none b = b := rfl

/-- `a ?? b` takes `a` when it is present. -/
theorem jsOr_some (x : α) (b : Option α) : jsOr (some x) b = some x := rfl

/-- A filter returning a single row splits the list at that row, with the
predicate false everywhere else. -/
theorem filter_eq_singleton_decomp {α : Type} {p : α → Bool} {l : List α} {c : α}
    (h : l.filter p = [c]) :
    ∃ l₁ l₂, l = l₁ ++ c :: l₂ ∧ (∀ x ∈ l₁, p x = false) ∧ (∀ x ∈ l₂, p x = false) ∧
      p c = true := by
  induction l with
  | nil => cases h
  | cons a t ih =>
      cases hp : p a with
      | true =>
          rw [List.filter_cons_of_pos hp] at h
          injection h with h1 h2
          subst h1
          refine ⟨[], t, rfl, ?_, ?_, hp⟩
          · intro x hx
            cases hx
          · intro x hx
            have hnx := List.filter_eq_nil_iff.1 h2 x hx
            cases hpx : p x
            · rfl
            · exact absurd hpx hnx
      | false =>
          rw [List.filter_cons_of_neg (by simp [hp])] at h
          rcases ih h with ⟨l₁, l₂, hl, h₁, h₂, hc⟩
          exact ⟨a :: l₁, l₂, by rw [hl]; rfl, by
            intro x hx
            rcases List.mem_cons.1 hx with hx | hx
            · subst hx; exact hp
            · exact h₁ x hx, h₂, hc⟩

/-- In a list whose keys are pairwise distinct, the parts around a
distinguished element carry different keys. -/
theorem key_ne_of_nodup {α : Type} (key : α → Nat) {l₁ l₂ : List α} {c : α}
    (hnd : ((l₁ ++ c :: l₂).map key).Nodup) :
    (∀ x ∈ l₁, key x ≠ key c) ∧ ∀ x ∈ l₂, key x ≠ key c := by
  rw [List.map_append, List.map_cons, List.nodup_append] at hnd
  rcases hnd with ⟨_, hnd2, hdisj⟩
  constructor
  · intro x hx hk
    exact hdisj (List.mem_map_of_mem key hx) (by simp [hk])
  · intro x hx hk
    exact (List.nodup_cons.1 hnd2).1 (hk ▸ List.mem_map_of_mem key hx)

/-- Patching the row with a given key by a value equal to that row is the
identity on a key-distinct list. -/
theorem map_update_self {α : Type} (key : α → Nat) {l₁ l₂ : List α} {c g : α}
    (hnd : ((l₁ ++ c :: l₂).map key).Nodup) (hg : g = c) :
    (l₁ ++ c :: l₂).map (fun x => if key x == key c then g else x) = l₁ ++ c :: l₂ := by
  rcases key_ne_of_nodup key hnd with ⟨h₁, h₂⟩
  rw [List.map_append, List.map_cons]
  congr 1
  · apply List.map_congr_left ?_ |>.trans (List.map_id l₁)
    intro x hx
    simp [h₁ x hx]
  · congr 1
    · simp [hg]
    · apply List.map_congr_left ?_ |>.trans (List.map_id l₂)
      intro x hx
      simp [h₂ x hx]

/-- Updating the row at a key (present exactly once as a filter match)
replaces it in place and leaves the rest of the list alone. -/
theorem map_update_decomp {α : Type} (key : α → Nat) {p : α → Bool} {l : List α} {c : α}
    (g : α) (hf : l.filter p = [c]) (hnd : (l.map key).Nodup) :
    ∃ l₁ l₂, l = l₁ ++ c :: l₂ ∧
      l.map (fun x => if key x == key c then g else x) = l₁ ++ g :: l₂ ∧
      (∀ x ∈ l₁, p x = false ∧ key x ≠ key c) ∧
      (∀ x ∈ l₂, p x = false ∧ key x ≠ key c) ∧ p c = true := by
  rcases filter_eq_singleton_decomp hf with ⟨l₁, l₂, hl, h₁, h₂, hc⟩
  subst hl
  rcases key_ne_of_nodup key hnd with ⟨hk₁, hk₂⟩
  refine ⟨l₁, l₂, rfl, ?_, fun x hx => ⟨h₁ x hx, hk₁ x hx⟩, fun x hx => ⟨h₂ x hx, hk₂ x hx⟩, hc⟩
  rw [List.map_append, List.map_cons]
  congr 1
  · apply List.map_congr_left ?_ |>.trans (List.map_id l₁)
    intro x hx
    simp [hk₁ x hx]
  · congr 1
    · simp
    · apply List.map_congr_left ?_ |>.trans (List.map_id l₂)
      intro x hx
      simp [hk₂ x hx]

/-! ### Change detection -/

/-- Equality of the underlying finite sets of two number lists, phrased
through membership. -/
theorem toFinset_eq_iff_mem {old new : List Nat} :
    old.toFinset = new.toFinset ↔ ∀ a, a ∈ old ↔ a ∈ new := by
  constructor
  · intro h a
    rw [← List.mem_toFinset, h, List.mem_toFinset]
  · intro h
    ext a
    simp only [List.mem_toFinset]
    exact h a

/-- The change-detection block returns `false` exactly when the stored and
fetched number lists have the same elements. -/
theorem computeChanged_eq_false_iff (old new : List Nat) :
    computeChanged old new = false ↔ old.toFinset = new.toFinset := by
  rw [toFinset_eq_iff_mem]
  unfold computeChanged
  constructor
  · intro h
    by_cases hlen : (old.dedup.length != new.dedup.length) = true
    · rw [if_pos hlen] at h
      exact absurd h (by simp)
    · rw [if_neg hlen] at h
      by_cases h2 : (new.dedup.any fun n => !old.dedup.contains n) = true
      · rw [if_pos h2] at h
        exact absurd h (by simp)
      · rw [if_neg h2] at h
        have h2' : ∀ n ∈ new.dedup, old.dedup.contains n = true := by
          intro n hn
          have := List.any_eq_false.1 (Bool.eq_false_iff.2 h2) n hn
          simpa using this
        have h3' : ∀ n ∈ old.dedup, new.dedup.contains n = true := by
          intro n hn
          have := List.any_eq_false.1 h n hn
          simpa using this
        intro a
        constructor
        · intro ha
          have := h3' a (List.mem_dedup.2 ha)
          exact List.mem_dedup.1 (by simpa using this)
        · intro ha
          have := h2' a (List.mem_dedup.2 ha)
          exact List.mem_dedup.1 (by simpa using this)
  · intro h
    have hfin : old.toFinset = new.toFinset := toFinset_eq_iff_mem.2 h
    have hlen : old.dedup.length = new.dedup.length := by
      have hc := congrArg Finset.card hfin
      rwa [List.card_toFinset, List.card_toFinset] at hc
    rw [if_neg (by simp [hlen])]
    rw [if_neg (by
      simp only [List.any_eq_true, not_exists, not_and]
      intro n hn
      have : n ∈ old := (h n).2 (List.mem_dedup.1 hn)
      simp [List.mem_dedup.2 this])]
    rw [List.any_eq_false]
    intro n hn
    have : n ∈ new := (h n).1 (List.mem_dedup.1 hn)
    simp [List.mem_dedup.2 this]

/-- Claim C1: the Change Detector's `changed` is true iff the two PR-number
sets differ as sets; in particular it is false for two empty lists and for
equal sets listed in different orders, and true when an element is dropped. -/
theorem changed_iff_sets_differ :
    (∀ old new : List Nat, computeChanged old new = true ↔ old.toFinset ≠ new.toFinset) ∧
      computeChanged [] [] = false ∧
      computeChanged [1, 2] [2, 1] = false ∧
      computeChanged [1, 2] [1] = true := by
  refine ⟨fun old new => ?_, by decide, by decide, by decide⟩
  constructor
  · intro ht hfin
    have hf := (computeChanged_eq_false_iff old new).2 hfin
    rw [ht] at hf
    cases hf
  · intro hne
    cases hc : computeChanged old new
    · exact absurd ((computeChanged_eq_false_iff old new).1 hc) hne
    · rfl

/-! ### The Pruner -/

/-- Claim C6: the Pruner keeps exactly the rows that either belong to a
different repository or whose number is in the open set — so it deletes
every stale row of the repository, never deletes a row whose number is in
the set, leaves the other tables alone, and is idempotent. -/
theorem pruner_deletes_exactly_stale_rows (repoId : Nat) (openPrNumbers : List Nat) (db : DB) :
    (∀ row : PRRow,
        row ∈ (pruneClosedPullRequestsForRepo repoId openPrNumbers db).pullRequests ↔
          row ∈ db.pullRequests ∧ ¬(row.repoId = repoId ∧ row.prNumber ∉ openPrNumbers)) ∧
      pruneClosedPullRequestsForRepo repoId openPrNumbers
          (pruneClosedPullRequestsForRepo repoId openPrNumbers db) =
        pruneClosedPullRequestsForRepo repoId openPrNumbers db ∧
      (pruneClosedPullRequestsForRepo repoId openPrNumbers db).repos = db.repos ∧
      (pruneClosedPullRequestsForRepo repoId openPrNumbers db).contributors =
        db.contributors ∧
      (pruneClosedPullRequestsForRepo repoId openPrNumbers db).repoContributors =
        db.repoContributors := by
  refine ⟨?_, ?_, rfl, rfl, rfl⟩
  · intro row
    simp only [pruneClosedPullRequestsForRepo, List.mem_filter]
    constructor
    · rintro ⟨hmem, hkeep⟩
      refine ⟨hmem, ?_⟩
      rintro ⟨hrep, hnum⟩
      simp [hrep, hnum] at hkeep
    · rintro ⟨hmem, hkeep⟩
      refine ⟨hmem, ?_⟩
      by_cases hrep : row.repoId = repoId
      · have hnum : row.prNumber ∈ openPrNumbers := by
          by_contra hn
          exact hkeep ⟨hrep, hn⟩
        simp [hrep, hnum]
      · simp [hrep]
  · simp only [pruneClosedPullRequestsForRepo, List.filter_filter]
    congr 1
    apply List.filter_congr
    intro x _
    cases h : (!(x.repoId == repoId) || openPrNumbers.contains x.prNumber) <;> simp [h]

/-- Claim C6 witness: a concrete run of the Pruner on a two-row table. -/
theorem pruner_deletes_exactly_stale_rows_witness :
    (⟨7, 1, 2, "p", 10, "t", none, PrStatus.opened, none, 0, none, none, 0⟩ : PRRow) ∈
        (pruneClosedPullRequestsForRepo 1 [10]
            { repos := [], contributors := [],
              pullRequests :=
                [⟨7, 1, 2, "p", 10, "t", none, PrStatus.opened, none, 0, none, none, 0⟩,
                  ⟨8, 1, 2, "q", 11, "t", none, PrStatus.opened, none, 0, none, none, 0⟩],
              repoContributors := [], nextId := 9 }).pullRequests := by
  have h := (pruner_deletes_exactly_stale_rows 1 [10]
    { repos := [], contributors := [],
      pullRequests :=
        [⟨7, 1, 2, "p", 10, "t", none, PrStatus.opened, none, 0, none, none, 0⟩,
          ⟨8, 1, 2, "q", 11, "t", none, PrStatus.opened, none, 0, none, none, 0⟩],
      repoContributors := [], nextId := 9 }).1
    ⟨7, 1, 2, "p", 10, "t", none, PrStatus.opened, none, 0, none, none, 0⟩
  exact h.2 ⟨by decide, by decide⟩

/-! ### Unknown-repository safety -/

/-- Claim C7: reconciling a pull request whose repository external id has no
matching local repository row returns without error and performs zero
writes: the store is returned unchanged and no result ids are produced. -/
theorem unknown_repo_sync_is_silent_noop (args : SyncArgs) (db : DB)
    (h : ∀ r ∈ db.repos, r.githubRepoId ≠ args.repo.githubRepoId) :
    syncPullRequestCore args db = Except.ok (db, none) := by
  have hf : db.repos.filter (fun r => r.githubRepoId == args.repo.githubRepoId) = [] := by
    rw [List.filter_eq_nil_iff]
    intro r hr
    simp [h r hr]
  have hu : uniqueBy (fun r => r.githubRepoId == args.repo.githubRepoId) db.repos =
      Except.ok none := by
    simp [uniqueBy, hf]
  unfold syncPullRequestCore
  rw [hu]
  rfl

/-- Claim C7 witness: a concrete sync against a store whose only repo row
has a different external id. -/
theorem unknown_repo_sync_is_silent_noop_witness :
    syncPullRequestCore
        { repo := ⟨"gh-404", "o", "n", none, "u", "main"⟩,
          author := ⟨"u1", "alice", none, none⟩,
          pullRequest := ⟨"pr1", 1, "t", none, PrState.opened, false, 0, none, none⟩,
          stats := ⟨1, 2, 3⟩, syncedAt := 5 }
        { repos := [⟨0, 0, "gh-1", "o", "n", none, "u", "main", none, 0, 0⟩],
          contributors := [], pullRequests := [], repoContributors := [], nextId := 1 } =
      Except.ok
        ({ repos := [⟨0, 0, "gh-1", "o", "n", none, "u", "main", none, 0, 0⟩],
           contributors := [], pullRequests := [], repoContributors := [], nextId := 1 },
          none) :=
  unknown_repo_sync_is_silent_noop _ _ (by decide)

/-! ### The contributor upsert -/

/-- A successful contributor upsert either inserted a fresh row (no existing
match) or patched the unique existing match. -/
theorem upsertContributorT_cases {author : AuthorArgs} {t : Nat} {cs : List Contributor}
    {nid : Nat} {cs' : List Contributor} {nid' cid : Nat}
    (h : upsertContributorT author t cs nid = Except.ok (cs', nid', cid)) :
    (cs.filter (fun c => c.githubUserId == author.githubUserId) = [] ∧
        cs' = cs ++ [freshContributor author t nid] ∧ cid = nid ∧ nid' = nid + 1) ∨
      ∃ c, cs.filter (fun c => c.githubUserId == author.githubUserId) = [c] ∧
        cs' = cs.map (fun x => if x.id == c.id then patchContributor author t c else x) ∧
        cid = c.id ∧ nid' = nid := by
  unfold upsertContributorT uniqueBy at h
  cases hf : cs.filter (fun c => c.githubUserId == author.githubUserId) with
  | nil =>
      rw [hf] at h
      simp only [Except.bind] at h
      injection h with h1
      injection h1 with h2 h3
      injection h3 with h4 h5
      exact Or.inl ⟨rfl, h2.symm, h5.symm, h4.symm⟩
  | cons a tl =>
      cases tl with
      | nil =>
          rw [hf] at h
          simp only [Except.bind] at h
          injection h with h1
          injection h1 with h2 h3
          injection h3 with h4 h5
          exact Or.inr ⟨a, rfl, h2.symm, h5.symm, h4.symm⟩
      | cons b tl2 =>
          rw [hf] at h
          simp only [Except.bind] at h
          cases h

/-- Patching a contributor preserves its id. -/
theorem patchContributor_id (author : AuthorArgs) (t : Nat) (c : Contributor) :
    (patchContributor author t c).id = c.id := rfl

/-- Re-patching a patched contributor row changes nothing. -/
theorem patchContributor_idem (author : AuthorArgs) (t : Nat) (c : Contributor) :
    patchContributor author t (patchContributor author t c) = patchContributor author t c := by
  simp [patchContributor, jsOr_idem]

/-- A freshly inserted contributor row is already patch-stable. -/
theorem patchContributor_fresh (author : AuthorArgs) (t nid : Nat) :
    patchContributor author t (freshContributor author t nid) =
      freshContributor author t nid := by
  simp [patchContributor, freshContributor, jsOr_self]

/-- Characterization of a successful contributor upsert on an id-distinct,
id-bounded table: afterwards the table splits around a single row matching
the author's external user id; that row carries the returned id and the
fetched login and is a fixed point of re-patching; ids stay distinct and
bounded. -/
theorem upsertContributorT_spec {author : AuthorArgs} {t : Nat} {cs : List Contributor}
    {nid : Nat} {cs' : List Contributor} {nid' cid : Nat}
    (hnd : (cs.map Contributor.id).Nodup)
    (hbd : ∀ i ∈ cs.map Contributor.id, i < nid)
    (h : upsertContributorT author t cs nid = Except.ok (cs', nid', cid)) :
    ∃ l₁ l₂ c', cs' = l₁ ++ c' :: l₂ ∧
      c'.id = cid ∧
      c'.githubUserId = author.githubUserId ∧
      patchContributor author t c' = c' ∧
      (∀ x ∈ l₁, (x.githubUserId == author.githubUserId) = false) ∧
      (∀ x ∈ l₂, (x.githubUserId == author.githubUserId) = false) ∧
      nid ≤ nid' ∧
      (cs'.map Contributor.id).Nodup ∧
      (∀ i ∈ cs'.map Contributor.id, i < nid') := by
  rcases upsertContributorT_cases h with ⟨hf, hcs, hcid, hnid⟩ | ⟨c, hf, hcs, hcid, hnid⟩
  · refine ⟨cs, [], freshContributor author t nid, by rw [hcs], by rw [hcid]; rfl, rfl,
      patchContributor_fresh author t nid, ?_, ?_, by omega, ?_, ?_⟩
    · intro x hx
      have := List.filter_eq_nil_iff.1 hf x hx
      cases hpx : (x.githubUserId == author.githubUserId)
      · rfl
      · exact absurd hpx this
    · intro x hx
      cases hx
    · rw [hcs, List.map_append]
      rw [List.nodup_append]
      refine ⟨hnd, List.nodup_singleton _, ?_⟩
      intro i hi hi2
      have := hbd i hi
      simp only [List.map_cons, List.map_nil, List.mem_singleton, freshContributor] at hi2
      omega
    · intro i hi
      rw [hcs, List.map_append] at hi
      rcases List.mem_append.1 hi with hi | hi
      · have := hbd i hi
        omega
      · simp only [List.map_cons, List.map_nil, List.mem_singleton, freshContributor] at hi
        omega
  · rcases map_update_decomp Contributor.id (patchContributor author t c) hf hnd with
      ⟨l₁, l₂, hl, hmap, h₁, h₂, hc⟩
    have hguid : c.githubUserId = author.githubUserId := by simpa using hc
    refine ⟨l₁, l₂, patchContributor author t c, by rw [hcs, hmap],
      by rw [hcid]; rfl, by simpa [patchContributor] using hguid,
      patchContributor_idem author t c, fun x hx => (h₁ x hx).1, fun x hx => (h₂ x hx).1,
      by omega, ?_, ?_⟩
    · have hids : (l₁ ++ patchContributor author t c :: l₂).map Contributor.id =
          (l₁ ++ c :: l₂).map Contributor.id := by
        simp [patchContributor_id]
      rw [hcs, hmap, hids, ← hl]
      exact hnd
    · intro i hi
      rw [hcs, hmap] at hi
      have hids : (l₁ ++ patchContributor author t c :: l₂).map Contributor.id =
          (l₁ ++ c :: l₂).map Contributor.id := by
        simp [patchContributor_id]
      rw [hids, ← hl] at hi
      have := hbd i hi
      omega

/-! ### The pull-request upsert -/

/-- A successful pull-request upsert either inserted a fresh row or patched
the unique existing (repoId, prNumber) match. -/
theorem upsertPRT_cases {repoId contributorId : Nat} {p : PrArgs} {t : Nat} {prs : List PRRow}
    {nid : Nat} {prs' : List PRRow} {nid' prId : Nat}
    (h : upsertPRT repoId contributorId p t prs nid = Except.ok (prs', nid', prId)) :
    (prs.filter (fun r => r.repoId == repoId && r.prNumber == p.number) = [] ∧
        prs' = prs ++ [freshPRRow repoId contributorId p t nid] ∧
        prId = nid ∧ nid' = nid + 1) ∨
      ∃ e, prs.filter (fun r => r.repoId == repoId && r.prNumber == p.number) = [e] ∧
        prs' = prs.map (fun x => if x.id == e.id then patchPRRow repoId contributorId p t e
          else x) ∧
        prId = e.id ∧ nid' = nid := by
  unfold upsertPRT uniqueBy at h
  cases hf : prs.filter (fun r => r.repoId == repoId && r.prNumber == p.number) with
  | nil =>
      rw [hf] at h
      simp only [Except.bind] at h
      injection h with h1
      injection h1 with h2 h3
      injection h3 with h4 h5
      exact Or.inl ⟨rfl, h2.symm, h5.symm, h4.symm⟩
  | cons a tl =>
      cases tl with
      | nil =>
          rw [hf] at h
          simp only [Except.bind] at h
          injection h with h1
          injection h1 with h2 h3
          injection h3 with h4 h5
          exact Or.inr ⟨a, rfl, h2.symm, h5.symm, h4.symm⟩
      | cons b tl2 =>
          rw [hf] at h
          simp only [Except.bind] at h
          cases h

/-- Patching a pull-request row preserves its id. -/
theorem patchPRRow_id (repoId contributorId : Nat) (p : PrArgs) (t : Nat) (r : PRRow) :
    (patchPRRow repoId contributorId p t r).id = r.id := rfl

/-- Re-patching a patched pull-request row changes nothing. -/
theorem patchPRRow_idem (repoId contributorId : Nat) (p : PrArgs) (t : Nat) (r : PRRow) :
    patchPRRow repoId contributorId p t (patchPRRow repoId contributorId p t r) =
      patchPRRow repoId contributorId p t r := by
  simp [patchPRRow]

/-- A freshly inserted pull-request row is already patch-stable. -/
theorem patchPRRow_fresh (repoId contributorId : Nat) (p : PrArgs) (t nid : Nat) :
    patchPRRow repoId contributorId p t (freshPRRow repoId contributorId p t nid) =
      freshPRRow repoId contributorId p t nid := by
  simp [patchPRRow, freshPRRow]

/-- Characterization of a successful pull-request upsert on an id-distinct,
id-bounded table: afterwards the table splits around a single row carrying
the returned id, the upsert key, the derived status, the author link and
the sync timestamp; the row is a fixed point of re-patching; ids stay
distinct and bounded. -/
theorem upsertPRT_spec {repoId contributorId : Nat} {p : PrArgs} {t : Nat} {prs : List PRRow}
    {nid : Nat} {prs' : List PRRow} {nid' prId : Nat}
    (hnd : (prs.map PRRow.id).Nodup)
    (hbd : ∀ i ∈ prs.map PRRow.id, i < nid)
    (h : upsertPRT repoId contributorId p t prs nid = Except.ok (prs', nid', prId)) :
    ∃ l₁ l₂ e', prs' = l₁ ++ e' :: l₂ ∧
      e'.id = prId ∧
      e'.repoId = repoId ∧
      e'.prNumber = p.number ∧
      e'.status = prStatusOf p ∧
      e'.authorContributorId = contributorId ∧
      patchPRRow repoId contributorId p t e' = e' ∧
      (∀ x ∈ l₁, (x.repoId == repoId && x.prNumber == p.number) = false) ∧
      (∀ x ∈ l₂, (x.repoId == repoId && x.prNumber == p.number) = false) ∧
      nid ≤ nid' ∧
      (prs'.map PRRow.id).Nodup ∧
      (∀ i ∈ prs'.map PRRow.id, i < nid') := by
  rcases upsertPRT_cases h with ⟨hf, hps, hid, hnid⟩ | ⟨e, hf, hps, hid, hnid⟩
  · refine ⟨prs, [], freshPRRow repoId contributorId p t nid, by rw [hps], by rw [hid]; rfl,
      rfl, rfl, rfl, rfl, patchPRRow_fresh repoId contributorId p t nid, ?_, ?_, by omega,
      ?_, ?_⟩
    · intro x hx
      have := List.filter_eq_nil_iff.1 hf x hx
      cases hpx : (x.repoId == repoId && x.prNumber == p.number)
      · rfl
      · exact absurd hpx this
    · intro x hx
      cases hx
    · rw [hps, List.map_append, List.nodup_append]
      refine ⟨hnd, List.nodup_singleton _, ?_⟩
      intro i hi hi2
      have := hbd i hi
      simp only [List.map_cons, List.map_nil, List.mem_singleton, freshPRRow] at hi2
      omega
    · intro i hi
      rw [hps, List.map_append] at hi
      rcases List.mem_append.1 hi with hi | hi
      · have := hbd i hi
        omega
      · simp only [List.map_cons, List.map_nil, List.mem_singleton, freshPRRow] at hi
        omega
  · rcases map_update_decomp PRRow.id (patchPRRow repoId contributorId p t e) hf hnd with
      ⟨l₁, l₂, hl, hmap, h₁, h₂, hc⟩
    refine ⟨l₁, l₂, patchPRRow repoId contributorId p t e, by rw [hps, hmap],
      by rw [hid]; rfl, rfl, rfl, rfl, rfl,
      patchPRRow_idem repoId contributorId p t e,
      fun x hx => (h₁ x hx).1, fun x hx => (h₂ x hx).1, by omega, ?_, ?_⟩
    · have hids : (l₁ ++ patchPRRow repoId contributorId p t e :: l₂).map PRRow.id =
          (l₁ ++ e :: l₂).map PRRow.id := by
        simp [patchPRRow_id]
      rw [hps, hmap, hids, ← hl]
      exact hnd
    · intro i hi
      rw [hps, hmap] at hi
      have hids : (l₁ ++ patchPRRow repoId contributorId p t e :: l₂).map PRRow.id =
          (l₁ ++ e :: l₂).map PRRow.id := by
        simp [patchPRRow_id]
      rw [hids, ← hl] at hi
      have := hbd i hi
      omega

/-- After a successful pull-request upsert, the upsert key matches exactly
the one row the spec lemma exhibits. -/
theorem upsertPRT_key_filter {repoId contributorId : Nat} {p : PrArgs} {t : Nat}
    {prs : List PRRow} {nid : Nat} {prs' : List PRRow} {nid' prId : Nat}
    (hnd : (prs.map PRRow.id).Nodup)
    (hbd : ∀ i ∈ prs.map PRRow.id, i < nid)
    (h : upsertPRT repoId contributorId p t prs nid = Except.ok (prs', nid', prId)) :
    ∃ e', prs'.filter (fun r => r.repoId == repoId && r.prNumber == p.number) = [e'] ∧
      e'.id = prId ∧ e'.repoId = repoId ∧ e'.prNumber = p.number ∧
      e'.status = prStatusOf p ∧ e'.authorContributorId = contributorId := by
  rcases upsertPRT_spec hnd hbd h with
    ⟨l₁, l₂, e', hps, hid, hrep, hnum, hst, hauth, _, h₁, h₂, _, _, _⟩
  refine ⟨e', ?_, hid, hrep, hnum, hst, hauth⟩
  rw [hps, List.filter_append, List.filter_cons_of_pos (by simp [hrep, hnum]),
    List.filter_eq_nil_iff.2 ?_, List.filter_eq_nil_iff.2 ?_]
  · rfl
  · intro x hx
    simp [h₂ x hx]
  · intro x hx
    simp [h₁ x hx]

/-- A pull-request upsert leaves every filter that is disjoint from its key
unchanged (in particular the rows of every other (repo, number) key). -/
theorem upsertPRT_other_filter {repoId contributorId : Nat} {p : PrArgs} {t : Nat}
    {prs : List PRRow} {nid : Nat} {prs' : List PRRow} {nid' prId : Nat}
    (hnd : (prs.map PRRow.id).Nodup)
    (h : upsertPRT repoId contributorId p t prs nid = Except.ok (prs', nid', prId))
    (q : PRRow → Bool)
    (hq : ∀ r : PRRow, r.repoId = repoId → r.prNumber = p.number → q r = false) :
    prs'.filter q = prs.filter q := by
  rcases upsertPRT_cases h with ⟨hf, hps, _, _⟩ | ⟨e, hf, hps, _, _⟩
  · rw [hps, List.filter_append]
    have : q (freshPRRow repoId contributorId p t nid) = false := hq _ rfl rfl
    simp [this]
  · rcases map_update_decomp PRRow.id (patchPRRow repoId contributorId p t e) hf hnd with
      ⟨l₁, l₂, hl, hmap, _, _, hc⟩
    simp only [Bool.and_eq_true, beq_iff_eq] at hc
    have hqe : q e = false := hq e hc.1 hc.2
    have hqe' : q (patchPRRow repoId contributorId p t e) = false := hq _ rfl rfl
    rw [hps, hmap, hl, List.filter_append, List.filter_append]
    congr 1
    rw [List.filter_cons_of_neg (by simp [hqe']), List.filter_cons_of_neg (by simp [hqe])]

/-! ### The repository-contributor link upsert -/

/-- A successful link upsert either inserted a fresh row or patched the
unique existing (repoId, contributorId) match. -/
theorem upsertRepoContributorT_cases {repoId contributorId : Nat} {stats : StatsArgs} {t : Nat}
    {prs : List PRRow} {rcs : List RepoContributorRow} {nid : Nat}
    {rcs' : List RepoContributorRow} {nid' : Nat}
    (h : upsertRepoContributorT repoId contributorId stats t prs rcs nid =
      Except.ok (rcs', nid')) :
    (rcs.filter (fun rc => rc.repoId == repoId && rc.contributorId == contributorId) = [] ∧
        rcs' = rcs ++ [freshRepoContributor repoId contributorId stats t prs nid] ∧
        nid' = nid + 1) ∨
      ∃ rc, rcs.filter (fun rc => rc.repoId == repoId && rc.contributorId == contributorId) =
          [rc] ∧
        rcs' = rcs.map (fun x =>
          if x.id == rc.id then patchRepoContributor stats t prs contributorId rc else x) ∧
        nid' = nid := by
  unfold upsertRepoContributorT uniqueBy at h
  cases hf : rcs.filter (fun rc => rc.repoId == repoId && rc.contributorId == contributorId) with
  | nil =>
      rw [hf] at h
      simp only [Except.bind] at h
      injection h with h1
      injection h1 with h2 h3
      exact Or.inl ⟨rfl, h2.symm, h3.symm⟩
  | cons a tl =>
      cases tl with
      | nil =>
          rw [hf] at h
          simp only [Except.bind] at h
          injection h with h1
          injection h1 with h2 h3
          exact Or.inr ⟨a, rfl, h2.symm, h3.symm⟩
      | cons b tl2 =>
          rw [hf] at h
          simp only [Except.bind] at h
          cases h

/-- Patching a link row preserves its id. -/
theorem patchRepoContributor_id (stats : StatsArgs) (t : Nat) (prs : List PRRow)
    (contributorId : Nat) (rc : RepoContributorRow) :
    (patchRepoContributor stats t prs contributorId rc).id = rc.id := rfl

/-- Re-patching a patched link row with the same pull-request table changes
nothing. -/
theorem patchRepoContributor_idem (stats : StatsArgs) (t : Nat) (prs : List PRRow)
    (contributorId : Nat) (rc : RepoContributorRow) :
    patchRepoContributor stats t prs contributorId
        (patchRepoContributor stats t prs contributorId rc) =
      patchRepoContributor stats t prs contributorId rc := by
  simp [patchRepoContributor]

/-- A freshly inserted link row is already patch-stable for the same
pull-request table. -/
theorem patchRepoContributor_fresh (repoId contributorId : Nat) (stats : StatsArgs) (t : Nat)
    (prs : List PRRow) (nid : Nat) :
    patchRepoContributor stats t prs contributorId
        (freshRepoContributor repoId contributorId stats t prs nid) =
      freshRepoContributor repoId contributorId stats t prs nid := by
  simp [patchRepoContributor, freshRepoContributor]

/-- Characterization of a successful link upsert on an id-distinct,
id-bounded table: afterwards the table splits around a single row for the
(repo, contributor) pair whose `prCount` is the author-wide count over the
supplied pull-request table; the row is patch-stable for that table; ids
stay distinct and bounded. -/
theorem upsertRepoContributorT_spec {repoId contributorId : Nat} {stats : StatsArgs} {t : Nat}
    {prs : List PRRow} {rcs : List RepoContributorRow} {nid : Nat}
    {rcs' : List RepoContributorRow} {nid' : Nat}
    (hnd : (rcs.map RepoContributorRow.id).Nodup)
    (hbd : ∀ i ∈ rcs.map RepoContributorRow.id, i < nid)
    (h : upsertRepoContributorT repoId contributorId stats t prs rcs nid =
      Except.ok (rcs', nid')) :
    ∃ l₁ l₂ rc', rcs' = l₁ ++ rc' :: l₂ ∧
      rc'.repoId = repoId ∧
      rc'.contributorId = contributorId ∧
      rc'.prCount = countPrsByAuthor contributorId prs ∧
      rc'.linesChanged = stats.additions + stats.deletions ∧
      patchRepoContributor stats t prs contributorId rc' = rc' ∧
      (∀ x ∈ l₁, (x.repoId == repoId && x.contributorId == contributorId) = false) ∧
      (∀ x ∈ l₂, (x.repoId == repoId && x.contributorId == contributorId) = false) ∧
      nid ≤ nid' ∧
      (rcs'.map RepoContributorRow.id).Nodup ∧
      (∀ i ∈ rcs'.map RepoContributorRow.id, i < nid') := by
  rcases upsertRepoContributorT_cases h with ⟨hf, hrc, hnid⟩ | ⟨rc, hf, hrc, hnid⟩
  · refine ⟨rcs, [], freshRepoContributor repoId contributorId stats t prs nid, by rw [hrc],
      rfl, rfl, rfl, rfl, patchRepoContributor_fresh repoId contributorId stats t prs nid,
      ?_, ?_, by omega, ?_, ?_⟩
    · intro x hx
      have := List.filter_eq_nil_iff.1 hf x hx
      cases hpx : (x.repoId == repoId && x.contributorId == contributorId)
      · rfl
      · exact absurd hpx this
    · intro x hx
      cases hx
    · rw [hrc, List.map_append, List.nodup_append]
      refine ⟨hnd, List.nodup_singleton _, ?_⟩
      intro i hi hi2
      have := hbd i hi
      simp only [List.map_cons, List.map_nil, List.mem_singleton,
        freshRepoContributor] at hi2
      omega
    · intro i hi
      rw [hrc, List.map_append] at hi
      rcases List.mem_append.1 hi with hi | hi
      · have := hbd i hi
        omega
      · simp only [List.map_cons, List.map_nil, List.mem_singleton,
          freshRepoContributor] at hi
        omega
  · rcases map_update_decomp RepoContributorRow.id
      (patchRepoContributor stats t prs contributorId rc) hf hnd with
      ⟨l₁, l₂, hl, hmap, h₁, h₂, hc⟩
    simp only [Bool.and_eq_true, beq_iff_eq] at hc
    refine ⟨l₁, l₂, patchRepoContributor stats t prs contributorId rc, by rw [hrc, hmap],
      by simpa [patchRepoContributor] using hc.1, by simpa [patchRepoContributor] using hc.2,
      rfl, rfl, patchRepoContributor_idem stats t prs contributorId rc,
      fun x hx => (h₁ x hx).1, fun x hx => (h₂ x hx).1, by omega, ?_, ?_⟩
    · have hids : (l₁ ++ patchRepoContributor stats t prs contributorId rc :: l₂).map
          RepoContributorRow.id = (l₁ ++ rc :: l₂).map RepoContributorRow.id := by
        simp [patchRepoContributor_id]
      rw [hrc, hmap, hids, ← hl]
      exact hnd
    · intro i hi
      rw [hrc, hmap] at hi
      have hids : (l₁ ++ patchRepoContributor stats t prs contributorId rc :: l₂).map
          RepoContributorRow.id = (l₁ ++ rc :: l₂).map RepoContributorRow.id := by
        simp [patchRepoContributor_id]
      rw [hids, ← hl] at hi
      have := hbd i hi
      omega

/-! ### The Reconciler core -/

/-- Inversion for a successful `Except` bind. -/
theorem bind_eq_ok {α β : Type} {e : Except String α} {f : α → Except String β} {b : β}
    (h : e >>= f = Except.ok b) : ∃ a, e = Except.ok a ∧ f a = Except.ok b := by
  cases e with
  | error s => exact absurd h (by simp [Bind.bind, Except.bind])
  | ok a => exact ⟨a, rfl, by simpa [Bind.bind, Except.bind] using h⟩

/-- `.unique()` answers `none` exactly when the filter is empty. -/
theorem uniqueBy_eq_ok_none {α : Type} {p : α → Bool} {l : List α}
    (h : uniqueBy p l = Except.ok none) : l.filter p = [] := by
  unfold uniqueBy at h
  cases hf : l.filter p with
  | nil => rfl
  | cons a tl =>
      cases tl with
      | nil =>
          rw [hf] at h
          simp at h
      | cons b tl2 =>
          rw [hf] at h
          cases h

/-- `.unique()` answers a row exactly when the filter is that singleton. -/
theorem uniqueBy_eq_ok_some {α : Type} {p : α → Bool} {l : List α} {c : α}
    (h : uniqueBy p l = Except.ok (some c)) : l.filter p = [c] := by
  unfold uniqueBy at h
  cases hf : l.filter p with
  | nil =>
      rw [hf] at h
      simp at h
  | cons a tl =>
      cases tl with
      | nil =>
          rw [hf] at h
          simp only [Except.ok.injEq, Option.some.injEq] at h
          rw [h]
      | cons b tl2 =>
          rw [hf] at h
          cases h

/-- A successful run of the Reconciler core either skipped (repository not
locally known) leaving the store untouched, or found the unique repository
row and chained the three upserts. -/
theorem syncPullRequestCore_cases {args : SyncArgs} {db db' : DB} {res : Option SyncResult}
    (h : syncPullRequestCore args db = Except.ok (db', res)) :
    (db.repos.filter (fun r => r.githubRepoId == args.repo.githubRepoId) = [] ∧
        db' = db ∧ res = none) ∨
      ∃ repoRow cs nid1 cid prs nid2 prId rcs nid3,
        db.repos.filter (fun r => r.githubRepoId == args.repo.githubRepoId) = [repoRow] ∧
        upsertContributorT args.author args.syncedAt db.contributors db.nextId =
          Except.ok (cs, nid1, cid) ∧
        upsertPRT repoRow.id cid args.pullRequest args.syncedAt db.pullRequests nid1 =
          Except.ok (prs, nid2, prId) ∧
        upsertRepoContributorT repoRow.id cid args.stats args.syncedAt prs
          db.repoContributors nid2 = Except.ok (rcs, nid3) ∧
        db' = { db with
          contributors := cs
          pullRequests := prs
          repoContributors := rcs
          nextId := nid3 } ∧
        res = some ⟨prId, cid, repoRow.id⟩ := by
  unfold syncPullRequestCore at h
  obtain ⟨v0, hu, h⟩ := bind_eq_ok h
  cases v0 with
  | none =>
      injection h with h1
      injection h1 with h2 h3
      exact Or.inl ⟨uniqueBy_eq_ok_none hu, h2.symm, h3.symm⟩
  | some repoRow =>
      obtain ⟨v1, h1, h⟩ := bind_eq_ok h
      obtain ⟨cs, nid1, cid⟩ := v1
      obtain ⟨v2, h2, h⟩ := bind_eq_ok h
      obtain ⟨prs, nid2, prId⟩ := v2
      obtain ⟨v3, h3, h⟩ := bind_eq_ok h
      obtain ⟨rcs, nid3⟩ := v3
      injection h with h4
      injection h4 with h5 h6
      exact Or.inr ⟨repoRow, cs, nid1, cid, prs, nid2, prId, rcs, nid3,
        uniqueBy_eq_ok_some hu, h1, h2, h3, h5.symm, h6.symm⟩

/-- The fresh-id counter never decreases across a contributor upsert. -/
theorem upsertContributorT_mono {author : AuthorArgs} {t : Nat} {cs : List Contributor}
    {nid : Nat} {cs' : List Contributor} {nid' cid : Nat}
    (h : upsertContributorT author t cs nid = Except.ok (cs', nid', cid)) : nid ≤ nid' := by
  rcases upsertContributorT_cases h with ⟨_, _, _, hn⟩ | ⟨_, _, _, _, hn⟩ <;> omega

/-- The fresh-id counter never decreases across a pull-request upsert. -/
theorem upsertPRT_mono {repoId contributorId : Nat} {p : PrArgs} {t : Nat} {prs : List PRRow}
    {nid : Nat} {prs' : List PRRow} {nid' prId : Nat}
    (h : upsertPRT repoId contributorId p t prs nid = Except.ok (prs', nid', prId)) :
    nid ≤ nid' := by
  rcases upsertPRT_cases h with ⟨_, _, _, hn⟩ | ⟨_, _, _, _, hn⟩ <;> omega

/-- The fresh-id counter never decreases across a link upsert. -/
theorem upsertRepoContributorT_mono {repoId contributorId : Nat} {stats : StatsArgs} {t : Nat}
    {prs : List PRRow} {rcs : List RepoContributorRow} {nid : Nat}
    {rcs' : List RepoContributorRow} {nid' : Nat}
    (h : upsertRepoContributorT repoId contributorId stats t prs rcs nid =
      Except.ok (rcs', nid')) : nid ≤ nid' := by
  rcases upsertRepoContributorT_cases h with ⟨_, _, hn⟩ | ⟨_, _, _, hn⟩ <;> omega

/-- The derived status of the argument object built by the sync action, as a
function of the raw fetched fields. -/
theorem prStatusOf_buildSyncArgs (repo : RepoRow) (fullPr : GithubPR) (t : Nat) :
    prStatusOf (buildSyncArgs repo fullPr t).pullRequest =
      (if fullPr.merged_at.isSome then PrStatus.merged
        else if fullPr.state == "open" then PrStatus.opened else PrStatus.closed) := by
  cases hm : fullPr.merged_at.isSome <;> cases hs : fullPr.state == "open" <;>
    simp [buildSyncArgs, prStatusOf, hm, hs]

instance (ids : List Nat) (next : Nat) : Decidable (TableOk ids next) := by
  unfold TableOk
  infer_instance

instance (db : DB) : Decidable (WFIds db) := by
  unfold WFIds
  infer_instance

/-! ### Claim C4: merged precedence -/

/-- Claim C4: for every reconciled pull request, the stored status is
derived with merged taking priority: if a merge timestamp is present the
status is merged (even when the raw state is closed), otherwise the raw
state decides; a PR with a merge timestamp is never stored as closed. -/
theorem merged_precedence (repo : RepoRow) (fullPr : GithubPR) (now : Nat) (db db' : DB)
    (res : SyncResult) (hwf : WFIds db)
    (h : syncPullRequestCore (buildSyncArgs repo fullPr now) db = Except.ok (db', some res)) :
    ∃ row ∈ db'.pullRequests, row.id = res.pullRequestId ∧
      row.status = (if fullPr.merged_at.isSome then PrStatus.merged
        else if fullPr.state == "open" then PrStatus.opened else PrStatus.closed) ∧
      (fullPr.merged_at.isSome = true → row.status = PrStatus.merged) ∧
      (fullPr.merged_at.isSome = true → row.status ≠ PrStatus.closed) := by
  rcases syncPullRequestCore_cases h with ⟨_, _, hres⟩ |
    ⟨repoRow, cs, nid1, cid, prs, nid2, prId, rcs, nid3, hf, h1, h2, h3, hdb, hres⟩
  · cases hres
  · obtain ⟨hndP, hbdP⟩ := hwf.2.1
    have hmono := upsertContributorT_mono h1
    have hbd1 : ∀ i ∈ db.pullRequests.map PRRow.id, i < nid1 := by
      intro i hi
      have := hbdP i hi
      omega
    rcases upsertPRT_spec hndP hbd1 h2 with
      ⟨l₁, l₂, e', hps, hid, _, _, hst, _, _, _, _, _, _, _⟩
    refine ⟨e', ?_, ?_, ?_, ?_, ?_⟩
    · rw [hdb]
      simp only [hps]
      exact List.mem_append.2 (Or.inr (List.mem_cons_self _ _))
    · injection hres with hres'
      rw [hid, hres']
    · rw [hst, prStatusOf_buildSyncArgs]
    · intro hm
      rw [hst, prStatusOf_buildSyncArgs, hm]
      rfl
    · intro hm
      rw [hst, prStatusOf_buildSyncArgs, hm]
      simp

/-- Repository row used by the concrete witnesses. -/
def wRepo : RepoRow :=
  ⟨0, 100, "gh-1", "octo", "proj", none, "https://x", "main", some "tok", 0, 0⟩

/-- Store used by the concrete witnesses: one known repository, nothing
else. -/
def wDb : DB :=
  { repos := [wRepo], contributors := [], pullRequests := [], repoContributors := [],
    nextId := 1 }

/-- A fetched pull request whose raw state is closed but that carries a
merge timestamp. -/
def wPrMerged : GithubPR :=
  ⟨11, 1, some "t", none, "closed", 0, some 5, some 6, some ⟨7, "alice", none, none⟩,
    some 1, some 2, some 3⟩

/-- The store after reconciling `wPrMerged` into `wDb`. -/
def wDbMerged : DB :=
  match syncPullRequestCore (buildSyncArgs wRepo wPrMerged 9) wDb with
  | Except.ok (d, _) => d
  | Except.error _ => wDb

/-- The result ids of reconciling `wPrMerged` into `wDb`. -/
def wResMerged : SyncResult :=
  match syncPullRequestCore (buildSyncArgs wRepo wPrMerged 9) wDb with
  | Except.ok (_, some r) => r
  | _ => ⟨0, 0, 0⟩

/-- Claim C4 witness: reconciling a closed-but-merged PR into a concrete
store yields a row stored as merged. -/
theorem merged_precedence_witness :
    ∃ row ∈ wDbMerged.pullRequests, row.id = wResMerged.pullRequestId ∧
      row.status = (if wPrMerged.merged_at.isSome then PrStatus.merged
        else if wPrMerged.state == "open" then PrStatus.opened else PrStatus.closed) ∧
      (wPrMerged.merged_at.isSome = true → row.status = PrStatus.merged) ∧
      (wPrMerged.merged_at.isSome = true → row.status ≠ PrStatus.closed) :=
  merged_precedence wRepo wPrMerged 9 wDb wDbMerged wResMerged (by decide) rfl

/-! ### Forward computation helpers -/

/-- Bind of a successful `Except` computation. -/
theorem except_bind_ok {α β : Type} (a : α) (f : α → Except String β) :
    (Except.ok a : Except String α) >>= f = f a := rfl

/-- `.unique()` on an empty filter. -/
theorem uniqueBy_of_filter_nil {α : Type} {p : α → Bool} {l : List α}
    (hf : l.filter p = []) : uniqueBy p l = Except.ok none := by
  unfold uniqueBy
  rw [hf]

/-- `.unique()` on a singleton filter. -/
theorem uniqueBy_of_filter_singleton {α : Type} {p : α → Bool} {l : List α} {c : α}
    (hf : l.filter p = [c]) : uniqueBy p l = Except.ok (some c) := by
  unfold uniqueBy
  rw [hf]

/-- The Reconciler core on an unknown repository is the silent no-op. -/
theorem core_skip {args : SyncArgs} {db : DB}
    (hf : db.repos.filter (fun r => r.githubRepoId == args.repo.githubRepoId) = []) :
    syncPullRequestCore args db = Except.ok (db, none) := by
  unfold syncPullRequestCore
  rw [uniqueBy_of_filter_nil hf]
  rfl

/-- The Reconciler core assembled from successful stage runs. -/
theorem core_build {args : SyncArgs} {db : DB} {repoRow : RepoRow} {cs : List Contributor}
    {nid1 cid : Nat} {prs : List PRRow} {nid2 prId : Nat} {rcs : List RepoContributorRow}
    {nid3 : Nat}
    (hf : db.repos.filter (fun r => r.githubRepoId == args.repo.githubRepoId) = [repoRow])
    (h1 : upsertContributorT args.author args.syncedAt db.contributors db.nextId =
      Except.ok (cs, nid1, cid))
    (h2 : upsertPRT repoRow.id cid args.pullRequest args.syncedAt db.pullRequests nid1 =
      Except.ok (prs, nid2, prId))
    (h3 : upsertRepoContributorT repoRow.id cid args.stats args.syncedAt prs
      db.repoContributors nid2 = Except.ok (rcs, nid3)) :
    syncPullRequestCore args db =
      Except.ok
        ({ db with
            contributors := cs
            pullRequests := prs
            repoContributors := rcs
            nextId := nid3 },
          some ⟨prId, cid, repoRow.id⟩) := by
  unfold syncPullRequestCore
  rw [uniqueBy_of_filter_singleton hf]
  simp only [except_bind_ok, h1, h2, h3]

/-- Re-running the contributor upsert on its own output is the identity. -/
theorem upsertContributorT_stable {author : AuthorArgs} {t : Nat} {l₁ l₂ : List Contributor}
    {c' : Contributor} (m : Nat)
    (hnd : ((l₁ ++ c' :: l₂).map Contributor.id).Nodup)
    (hstab : patchContributor author t c' = c')
    (hkey : c'.githubUserId = author.githubUserId)
    (h₁ : ∀ x ∈ l₁, (x.githubUserId == author.githubUserId) = false)
    (h₂ : ∀ x ∈ l₂, (x.githubUserId == author.githubUserId) = false) :
    upsertContributorT author t (l₁ ++ c' :: l₂) m =
      Except.ok (l₁ ++ c' :: l₂, m, c'.id) := by
  have hfil : (l₁ ++ c' :: l₂).filter (fun c => c.githubUserId == author.githubUserId) =
      [c'] := by
    rw [List.filter_append, List.filter_cons_of_pos (by simp [hkey]),
      List.filter_eq_nil_iff.2 (fun x hx => by simp [h₁ x hx]),
      List.filter_eq_nil_iff.2 (fun x hx => by simp [h₂ x hx])]
    rfl
  unfold upsertContributorT
  rw [uniqueBy_of_filter_singleton hfil]
  simp only [except_bind_ok]
  rw [map_update_self Contributor.id hnd hstab]

/-- Re-running the pull-request upsert on its own output is the identity. -/
theorem upsertPRT_stable {repoId contributorId : Nat} {p : PrArgs} {t : Nat}
    {l₁ l₂ : List PRRow} {e' : PRRow} (m : Nat)
    (hnd : ((l₁ ++ e' :: l₂).map PRRow.id).Nodup)
    (hstab : patchPRRow repoId contributorId p t e' = e')
    (hrep : e'.repoId = repoId) (hnum : e'.prNumber = p.number)
    (h₁ : ∀ x ∈ l₁, (x.repoId == repoId && x.prNumber == p.number) = false)
    (h₂ : ∀ x ∈ l₂, (x.repoId == repoId && x.prNumber == p.number) = false) :
    upsertPRT repoId contributorId p t (l₁ ++ e' :: l₂) m =
      Except.ok (l₁ ++ e' :: l₂, m, e'.id) := by
  have hfil : (l₁ ++ e' :: l₂).filter
      (fun r => r.repoId == repoId && r.prNumber == p.number) = [e'] := by
    rw [List.filter_append, List.filter_cons_of_pos (by simp [hrep, hnum]),
      List.filter_eq_nil_iff.2 (fun x hx => by simp [h₁ x hx]),
      List.filter_eq_nil_iff.2 (fun x hx => by simp [h₂ x hx])]
    rfl
  unfold upsertPRT
  rw [uniqueBy_of_filter_singleton hfil]
  simp only [except_bind_ok]
  rw [map_update_self PRRow.id hnd hstab]

/-- Re-running the link upsert (with the same pull-request table) on its own
output is the identity. -/
theorem upsertRepoContributorT_stable {repoId contributorId : Nat} {stats : StatsArgs}
    {t : Nat} {prs : List PRRow} {l₁ l₂ : List RepoContributorRow}
    {rc' : RepoContributorRow} (m : Nat)
    (hnd : ((l₁ ++ rc' :: l₂).map RepoContributorRow.id).Nodup)
    (hstab : patchRepoContributor stats t prs contributorId rc' = rc')
    (hrep : rc'.repoId = repoId) (hcon : rc'.contributorId = contributorId)
    (h₁ : ∀ x ∈ l₁, (x.repoId == repoId && x.contributorId == contributorId) = false)
    (h₂ : ∀ x ∈ l₂, (x.repoId == repoId && x.contributorId == contributorId) = false) :
    upsertRepoContributorT repoId contributorId stats t prs (l₁ ++ rc' :: l₂) m =
      Except.ok (l₁ ++ rc' :: l₂, m) := by
  have hfil : (l₁ ++ rc' :: l₂).filter
      (fun rc => rc.repoId == repoId && rc.contributorId == contributorId) = [rc'] := by
    rw [List.filter_append, List.filter_cons_of_pos (by simp [hrep, hcon]),
      List.filter_eq_nil_iff.2 (fun x hx => by simp [h₁ x hx]),
      List.filter_eq_nil_iff.2 (fun x hx => by simp [h₂ x hx])]
    rfl
  unfold upsertRepoContributorT
  rw [uniqueBy_of_filter_singleton hfil]
  simp only [except_bind_ok]
  rw [map_update_self RepoContributorRow.id hnd hstab]

/-! ### Claim C5: idempotence of the Reconciler -/

/-- Claim C5: running the Reconciler twice with identical arguments leaves
the store in exactly the state produced by running it once — the second run
changes no row and creates none — and returns the same row ids. -/
theorem reconciler_idempotent (args : SyncArgs) (db db₁ : DB) (res : Option SyncResult)
    (hwf : WFIds db)
    (h : syncPullRequestCore args db = Except.ok (db₁, res)) :
    syncPullRequestCore args db₁ = Except.ok (db₁, res) := by
  rcases syncPullRequestCore_cases h with ⟨hf, hdb, hres⟩ |
    ⟨repoRow, cs, nid1, cid, prs, nid2, prId, rcs, nid3, hf, h1, h2, h3, hdb, hres⟩
  · subst hdb
    subst hres
    exact core_skip hf
  · obtain ⟨⟨hndC, hbdC⟩, ⟨hndP, hbdP⟩, ⟨hndR, hbdR⟩⟩ := hwf
    rcases upsertContributorT_spec hndC hbdC h1 with
      ⟨a₁, a₂, c', hcs, hcid, hkeyC, hstabC, hs₁, hs₂, hm1, hndC', hbdC'⟩
    have hbdP1 : ∀ i ∈ db.pullRequests.map PRRow.id, i < nid1 := fun i hi =>
      lt_of_lt_of_le (hbdP i hi) hm1
    rcases upsertPRT_spec hndP hbdP1 h2 with
      ⟨b₁, b₂, e', hps, hpid, hrep, hnum, hst, hauth, hstabP, hp₁, hp₂, hm2, hndP', hbdP'⟩
    have hbdR1 : ∀ i ∈ db.repoContributors.map RepoContributorRow.id, i < nid2 := fun i hi =>
      lt_of_lt_of_le (hbdR i hi) (le_trans hm1 hm2)
    rcases upsertRepoContributorT_spec hndR hbdR1 h3 with
      ⟨d₁, d₂, rc', hrc, hrrep, hrcon, hcount, hlines, hstabR, hr₁, hr₂, hm3, hndR', hbdR'⟩
    have e1 : upsertContributorT args.author args.syncedAt db₁.contributors db₁.nextId =
        Except.ok (db₁.contributors, db₁.nextId, cid) := by
      rw [hdb]
      show upsertContributorT args.author args.syncedAt cs nid3 = Except.ok (cs, nid3, cid)
      rw [hcs, ← hcid]
      exact upsertContributorT_stable nid3 (hcs ▸ hndC') hstabC hkeyC hs₁ hs₂
    have e2 : upsertPRT repoRow.id cid args.pullRequest args.syncedAt db₁.pullRequests
        db₁.nextId = Except.ok (db₁.pullRequests, db₁.nextId, prId) := by
      rw [hdb]
      show upsertPRT repoRow.id cid args.pullRequest args.syncedAt prs nid3 =
        Except.ok (prs, nid3, prId)
      rw [hps, ← hpid]
      exact upsertPRT_stable nid3 (hps ▸ hndP') hstabP hrep hnum hp₁ hp₂
    have e3 : upsertRepoContributorT repoRow.id cid args.stats args.syncedAt
        db₁.pullRequests db₁.repoContributors db₁.nextId =
        Except.ok (db₁.repoContributors, db₁.nextId) := by
      rw [hdb]
      show upsertRepoContributorT repoRow.id cid args.stats args.syncedAt prs rcs nid3 =
        Except.ok (rcs, nid3)
      rw [hrc]
      exact upsertRepoContributorT_stable nid3 (hrc ▸ hndR') hstabR hrrep hrcon hr₁ hr₂
    have hf₂ : db₁.repos.filter (fun r => r.githubRepoId == args.repo.githubRepoId) =
        [repoRow] := by
      rw [hdb]
      exact hf
    have hrun := core_build hf₂ e1 e2 e3
    rw [hres]
    exact hrun

/-- Arguments used by the idempotence witness: a PR by a fresh author in the
known repository. -/
def wArgs : SyncArgs :=
  { repo := ⟨"gh-1", "octo", "proj", none, "https://x", "main"⟩
    author := ⟨"u9", "alice", some "Alice", none⟩
    pullRequest := ⟨"p1", 4, "t", none, PrState.opened, false, 0, none, none⟩
    stats := ⟨1, 2, 3⟩
    syncedAt := 7 }

/-- The store after one run of the Reconciler on `wArgs`. -/
def wDbOnce : DB :=
  match syncPullRequestCore wArgs wDb with
  | Except.ok (d, _) => d
  | Except.error _ => wDb

/-- The result of one run of the Reconciler on `wArgs`. -/
def wResOnce : Option SyncResult :=
  match syncPullRequestCore wArgs wDb with
  | Except.ok (_, r) => r
  | Except.error _ => none

/-- Claim C5 witness: a concrete second run reproduces the state of the
first run exactly. -/
theorem reconciler_idempotent_witness :
    syncPullRequestCore wArgs wDbOnce = Except.ok (wDbOnce, wResOnce) :=
  reconciler_idempotent wArgs wDb wDbOnce wResOnce (by decide) rfl

/-! ### Claim C9: contributor patch never erases known fields -/

/-- Claim C9: when the Reconciler patches an existing Contributor row it
prefers freshly fetched present values for name and avatar and never
overwrites a known name or avatar with an absent one: the stored value is
the fetched value when present, and the previously stored value when the
fetched one is absent. -/
theorem contributor_patch_preserves_known_fields (args : SyncArgs) (db db' : DB)
    (res : SyncResult) (c : Contributor)
    (hc : db.contributors.filter (fun x => x.githubUserId == args.author.githubUserId) = [c])
    (h : syncPullRequestCore args db = Except.ok (db', some res)) :
    ∃ c' ∈ db'.contributors, c'.id = c.id ∧
      c'.login = args.author.login ∧
      c'.name = jsOr args.author.name c.name ∧
      c'.avatarUrl = jsOr args.author.avatarUrl c.avatarUrl ∧
      (args.author.name = none → c'.name = c.name) ∧
      (∀ v, args.author.name = some v → c'.name = some v) ∧
      (args.author.avatarUrl = none → c'.avatarUrl = c.avatarUrl) ∧
      (∀ v, args.author.avatarUrl = some v → c'.avatarUrl = some v) := by
  rcases syncPullRequestCore_cases h with ⟨_, _, hres⟩ |
    ⟨repoRow, cs, nid1, cid, prs, nid2, prId, rcs, nid3, hf, h1, h2, h3, hdb, hres⟩
  · cases hres
  · rcases upsertContributorT_cases h1 with ⟨hnil, _, _, _⟩ | ⟨c₀, hfil, hcs, hcid, _⟩
    · rw [hc] at hnil
      cases hnil
    · rw [hc] at hfil
      injection hfil with hc₀ _
      subst hc₀
      have hmem : c ∈ db.contributors := by
        have : c ∈ db.contributors.filter
            (fun x => x.githubUserId == args.author.githubUserId) := by
          rw [hc]
          exact List.mem_singleton_self c
        exact (List.mem_filter.1 this).1
      refine ⟨patchContributor args.author args.syncedAt c, ?_, rfl, rfl, rfl, rfl,
        ?_, ?_, ?_, ?_⟩
      · rw [hdb]
        show patchContributor args.author args.syncedAt c ∈ cs
        rw [hcs]
        exact List.mem_map.2 ⟨c, hmem, by simp⟩
      · intro hn
        simp [patchContributor, hn, jsOr_none]
      · intro v hn
        simp [patchContributor, hn, jsOr_some]
      · intro hn
        simp [patchContributor, hn, jsOr_none]
      · intro v hn
        simp [patchContributor, hn, jsOr_some]

/-- A contributor already known to the store, with a known name and
avatar. -/
def wContributorBob : Contributor :=
  ⟨5, "u9", "bob", some "Bob", some "bob.png", 0, 0⟩

/-- The witness store containing `wContributorBob`. -/
def wDbWithBob : DB :=
  { repos := [wRepo], contributors := [wContributorBob], pullRequests := [],
    repoContributors := [], nextId := 6 }

/-- Sync arguments attributing a PR to Bob with no fetched name or
avatar. -/
def wArgsNoName : SyncArgs :=
  { repo := ⟨"gh-1", "octo", "proj", none, "https://x", "main"⟩
    author := ⟨"u9", "bob", none, none⟩
    pullRequest := ⟨"p2", 8, "t2", none, PrState.opened, false, 0, none, none⟩
    stats := ⟨0, 0, 0⟩
    syncedAt := 9 }

/-- The store after reconciling `wArgsNoName` into `wDbWithBob`. -/
def wDbAfterBob : DB :=
  match syncPullRequestCore wArgsNoName wDbWithBob with
  | Except.ok (d, _) => d
  | Except.error _ => wDbWithBob

/-- The result of reconciling `wArgsNoName` into `wDbWithBob`. -/
def wResBob : SyncResult :=
  match syncPullRequestCore wArgsNoName wDbWithBob with
  | Except.ok (_, some r) => r
  | _ => ⟨0, 0, 0⟩

/-- Claim C9 witness: reconciling Bob with an empty fetched name and avatar
leaves his stored name and avatar unchanged. -/
theorem contributor_patch_preserves_known_fields_witness :
    ∃ c' ∈ wDbAfterBob.contributors, c'.id = wContributorBob.id ∧
      c'.login = wArgsNoName.author.login ∧
      c'.name = jsOr wArgsNoName.author.name wContributorBob.name ∧
      c'.avatarUrl = jsOr wArgsNoName.author.avatarUrl wContributorBob.avatarUrl ∧
      (wArgsNoName.author.name = none → c'.name = wContributorBob.name) ∧
      (∀ v, wArgsNoName.author.name = some v → c'.name = some v) ∧
      (wArgsNoName.author.avatarUrl = none → c'.avatarUrl = wContributorBob.avatarUrl) ∧
      (∀ v, wArgsNoName.author.avatarUrl = some v → c'.avatarUrl = some v) :=
  contributor_patch_preserves_known_fields wArgsNoName wDbWithBob wDbAfterBob wResBob
    wContributorBob (by decide) rfl

/-! ### Claim C10: author-less PRs share one contributor -/

/-- Claim C10: a fetched pull request with no upstream author identity is
attributed to the shared contributor identity with external user id `""` and
login `"unknown"`; reconciling two author-less PRs (possibly of different
repositories) links both to one and the same Contributor row. -/
theorem authorless_prs_share_one_contributor (repoA repoB : RepoRow) (prA prB : GithubPR)
    (tA tB : Nat) (db db₁ db₂ : DB) (r₁ r₂ : SyncResult)
    (hA : prA.user = none) (hB : prB.user = none)
    (hwf : WFIds db)
    (h₁ : syncPullRequestCore (buildSyncArgs repoA prA tA) db = Except.ok (db₁, some r₁))
    (h₂ : syncPullRequestCore (buildSyncArgs repoB prB tB) db₁ = Except.ok (db₂, some r₂)) :
    (buildSyncArgs repoA prA tA).author =
      { githubUserId := "", login := "unknown", name := none, avatarUrl := none } ∧
      (buildSyncArgs repoB prB tB).author =
        { githubUserId := "", login := "unknown", name := none, avatarUrl := none } ∧
      r₁.contributorId = r₂.contributorId ∧
      ∃ c ∈ db₂.contributors, c.id = r₂.contributorId ∧ c.githubUserId = "" ∧
        c.login = "unknown" := by
  have hauthA : (buildSyncArgs repoA prA tA).author =
      { githubUserId := "", login := "unknown", name := none, avatarUrl := none } := by
    simp [buildSyncArgs, hA]
  have hauthB : (buildSyncArgs repoB prB tB).author =
      { githubUserId := "", login := "unknown", name := none, avatarUrl := none } := by
    simp [buildSyncArgs, hB]
  rcases syncPullRequestCore_cases h₁ with ⟨_, _, hres₁⟩ |
    ⟨rowA, cs, nid1, cid, prs, nid2, prId, rcs, nid3, hfA, ha1, ha2, ha3, hdb₁, hres₁⟩
  · cases hres₁
  rcases syncPullRequestCore_cases h₂ with ⟨_, _, hres₂⟩ |
    ⟨rowB, cs₂, nid1b, cidb, prsb, nid2b, prIdb, rcsb, nid3b, hfB, hb1, hb2, hb3, hdb₂,
      hres₂⟩
  · cases hres₂
  obtain ⟨⟨hndC, hbdC⟩, _, _⟩ := hwf
  rcases upsertContributorT_spec hndC hbdC ha1 with
    ⟨a₁, a₂, c', hcs, hcid, hkeyC, hstabC, hs₁, hs₂, hm1, hndC', hbdC'⟩
  have hkey0 : c'.githubUserId = "" := by
    rw [hkeyC, hauthA]
  have hkeyEq : (buildSyncArgs repoB prB tB).author.githubUserId =
      (buildSyncArgs repoA prA tA).author.githubUserId := by
    rw [hauthA, hauthB]
  have hdbc : db₁.contributors = cs := by
    rw [hdb₁]
  have hdbn : db₁.nextId = nid3 := by
    rw [hdb₁]
  have hfilB : db₁.contributors.filter
      (fun x => x.githubUserId == (buildSyncArgs repoB prB tB).author.githubUserId) =
      [c'] := by
    rw [hdbc, hcs, List.filter_append,
      List.filter_cons_of_pos (by rw [hkeyC, hkeyEq]; simp),
      List.filter_eq_nil_iff.2 (fun x hx => by rw [hkeyEq]; simp [hs₁ x hx]),
      List.filter_eq_nil_iff.2 (fun x hx => by rw [hkeyEq]; simp [hs₂ x hx])]
    rfl
  have hcid₂ : cidb = c'.id := by
    rcases upsertContributorT_cases hb1 with ⟨hnil, _, _, _⟩ | ⟨c₀, hfil₀, _, hcid₀, _⟩
    · rw [hfilB] at hnil
      cases hnil
    · rw [hfilB] at hfil₀
      injection hfil₀ with hc₀ _
      rw [hcid₀, hc₀]
  have hbd₁ : ∀ i ∈ db₁.contributors.map Contributor.id, i < db₁.nextId := by
    intro i hi
    rw [hdbc] at hi
    have := hbdC' i hi
    have hm2 := upsertPRT_mono ha2
    have hm3 := upsertRepoContributorT_mono ha3
    rw [hdbn]
    omega
  have hnd₁ : (db₁.contributors.map Contributor.id).Nodup := by
    rw [hdbc]
    exact hndC'
  rcases upsertContributorT_spec hnd₁ hbd₁ hb1 with
    ⟨m₁, m₂, c'', hcs₂, hcid₂', hkeyC₂, hstabC₂, _, _, _, _, _⟩
  refine ⟨hauthA, hauthB, ?_, c'', ?_, ?_, ?_, ?_⟩
  · injection hres₁ with hr₁
    injection hres₂ with hr₂
    rw [hr₁, hr₂]
    show cid = cidb
    rw [hcid₂, ← hcid]
  · rw [hdb₂]
    show c'' ∈ cs₂
    rw [hcs₂]
    exact List.mem_append.2 (Or.inr (List.mem_cons_self _ _))
  · injection hres₂ with hr₂
    rw [hr₂, hcid₂']
  · rw [hkeyC₂, hauthB]
  · have : c''.login = (buildSyncArgs repoB prB tB).author.login := by
      rw [← hstabC₂]
      rfl
    rw [this, hauthB]

/-- A second repository row for the author-less witness. -/
def wRepoB : RepoRow :=
  ⟨1, 100, "gh-2", "octo", "proj2", none, "https://y", "main", some "tok", 0, 0⟩

/-- Witness store with two repositories and no contributors. -/
def wDbTwoRepos : DB :=
  { repos := [wRepo, wRepoB], contributors := [], pullRequests := [], repoContributors := [],
    nextId := 2 }

/-- An author-less fetched PR for the first repository. -/
def wPrNoUserA : GithubPR :=
  ⟨21, 3, some "a", none, "open", 0, none, none, none, none, none, none⟩

/-- An author-less fetched PR for the second repository. -/
def wPrNoUserB : GithubPR :=
  ⟨22, 9, some "b", none, "open", 0, none, none, none, none, none, none⟩

/-- Store after reconciling the first author-less PR. -/
def wDbNA : DB :=
  match syncPullRequestCore (buildSyncArgs wRepo wPrNoUserA 4) wDbTwoRepos with
  | Except.ok (d, _) => d
  | Except.error _ => wDbTwoRepos

/-- Result of reconciling the first author-less PR. -/
def wResNA : SyncResult :=
  match syncPullRequestCore (buildSyncArgs wRepo wPrNoUserA 4) wDbTwoRepos with
  | Except.ok (_, some r) => r
  | _ => ⟨0, 0, 0⟩

/-- Store after reconciling the second author-less PR into `wDbNA`. -/
def wDbNB : DB :=
  match syncPullRequestCore (buildSyncArgs wRepoB wPrNoUserB 5) wDbNA with
  | Except.ok (d, _) => d
  | Except.error _ => wDbNA

/-- Result of reconciling the second author-less PR into `wDbNA`. -/
def wResNB : SyncResult :=
  match syncPullRequestCore (buildSyncArgs wRepoB wPrNoUserB 5) wDbNA with
  | Except.ok (_, some r) => r
  | _ => ⟨0, 0, 0⟩

/-- Claim C10 witness: two concrete author-less PRs in different
repositories end up linked to the same Contributor row. -/
theorem authorless_prs_share_one_contributor_witness :
    (buildSyncArgs wRepo wPrNoUserA 4).author =
      { githubUserId := "", login := "unknown", name := none, avatarUrl := none } ∧
      (buildSyncArgs wRepoB wPrNoUserB 5).author =
        { githubUserId := "", login := "unknown", name := none, avatarUrl := none } ∧
      wResNA.contributorId = wResNB.contributorId ∧
      ∃ c ∈ wDbNB.contributors, c.id = wResNB.contributorId ∧ c.githubUserId = "" ∧
        c.login = "unknown" :=
  authorless_prs_share_one_contributor wRepo wRepoB wPrNoUserA wPrNoUserB 4 5 wDbTwoRepos
    wDbNA wDbNB wResNA wResNB rfl rfl (by decide) rfl rfl

/-! ### Claim C3: the prCount aggregate

The count queries behind `prCount` (github.ts lines 162-168 and 182-188) use
the `byAuthor` index with no repository restriction, so the stored count
ranges over all of the contributor's pull-request rows, not only those of
the link's repository. -/

/-- Store for the prCount counterexample: contributor 5 already has one PR
row in repository 0; repository 1 has none. -/
def cDb : DB :=
  { repos := [wRepo, wRepoB]
    contributors := [⟨5, "u9", "bob", none, none, 0, 0⟩]
    pullRequests := [⟨6, 0, 5, "p0", 1, "t", none, PrStatus.opened, none, 0, none, none, 0⟩]
    repoContributors := []
    nextId := 7 }

/-- Arguments reconciling a new PR by contributor 5 into repository 1. -/
def cArgs : SyncArgs :=
  { repo := ⟨"gh-2", "octo", "proj2", none, "https://y", "main"⟩
    author := ⟨"u9", "bob", none, none⟩
    pullRequest := ⟨"p9", 2, "t", none, PrState.opened, false, 0, none, none⟩
    stats := ⟨0, 0, 0⟩
    syncedAt := 3 }

/-- Store after reconciling `cArgs` into `cDb`. -/
def cDbAfter : DB :=
  match syncPullRequestCore cArgs cDb with
  | Except.ok (d, _) => d
  | Except.error _ => cDb

/-- Claim C3 counterexample: the link (repository 1, contributor 5) created
by this run stores `prCount = 2`, while only one stored pull-request row has
that author and that repository — so `prCount` is not the per-repository
count the claim states. -/
theorem link_prCount_not_per_repo_counterexample :
    ∃ rc ∈ cDbAfter.repoContributors, rc.repoId = 1 ∧ rc.contributorId = 5 ∧
      rc.prCount = 2 ∧
      (cDbAfter.pullRequests.filter
        (fun p => p.authorContributorId == 5 && p.repoId == 1)).length = 1 := by
  refine ⟨⟨8, 1, 5, none, none, 2, 0, none, 3, 3⟩, ?_, rfl, rfl, rfl, ?_⟩ <;> decide

/-- Claim C3 (amended): after every Reconciler run that touches a
Repository-Contributor link, that link's `prCount` equals the number of
pull-request rows currently stored whose author is that contributor across
all repositories (recomputed by counting, not incremented). -/
theorem link_prCount_is_author_wide_count (args : SyncArgs) (db db' : DB) (res : SyncResult)
    (hwf : WFIds db)
    (h : syncPullRequestCore args db = Except.ok (db', some res)) :
    ∃ rc ∈ db'.repoContributors,
      rc.repoId = res.repoId ∧ rc.contributorId = res.contributorId ∧
      rc.prCount = (db'.pullRequests.filter
        (fun p => p.authorContributorId == res.contributorId)).length := by
  rcases syncPullRequestCore_cases h with ⟨_, _, hres⟩ |
    ⟨repoRow, cs, nid1, cid, prs, nid2, prId, rcs, nid3, hf, h1, h2, h3, hdb, hres⟩
  · cases hres
  · obtain ⟨_, _, ⟨hndR, hbdR⟩⟩ := hwf
    have hbdR1 : ∀ i ∈ db.repoContributors.map RepoContributorRow.id, i < nid2 :=
      fun i hi => lt_of_lt_of_le (hbdR i hi)
        (le_trans (upsertContributorT_mono h1) (upsertPRT_mono h2))
    rcases upsertRepoContributorT_spec hndR hbdR1 h3 with
      ⟨d₁, d₂, rc', hrc, hrrep, hrcon, hcount, _, _, _, _, _, _, _⟩
    injection hres with hres'
    refine ⟨rc', ?_, ?_, ?_, ?_⟩
    · rw [hdb]
      show rc' ∈ rcs
      rw [hrc]
      exact List.mem_append.2 (Or.inr (List.mem_cons_self _ _))
    · rw [hrrep, hres']
    · rw [hrcon, hres']
    · rw [hcount, hres']
      rw [hdb]
      rfl

/-- Store after reconciling `cArgs` into `cDb`, exposed as the successful
run for the amended-claim witness. -/
def cResAfter : SyncResult :=
  match syncPullRequestCore cArgs cDb with
  | Except.ok (_, some r) => r
  | _ => ⟨0, 0, 0⟩

/-- Claim C3 (amended) witness: the concrete run stores the author-wide
count on the touched link. -/
theorem link_prCount_is_author_wide_count_witness :
    ∃ rc ∈ cDbAfter.repoContributors,
      rc.repoId = cResAfter.repoId ∧ rc.contributorId = cResAfter.contributorId ∧
      rc.prCount = (cDbAfter.pullRequests.filter
        (fun p => p.authorContributorId == cResAfter.contributorId)).length :=
  link_prCount_is_author_wide_count cArgs cDb cDbAfter cResAfter (by decide) rfl

/-! ### Claim C8: the Downstream Trigger fires iff changed -/

/-- Unfolding of a completed full sync cycle for a known repository with a
configured token: the store went through reconcile-all then prune, and the
analysis workflow was scheduled exactly when the change detector fired. -/
theorem syncRepo_unfold {repoId : Nat} {github : GithubApi} {now : Nat} {db db' : DB}
    {sched : List Nat} {repo : RepoRow} {tok : String}
    (hfind : db.repos.find? (fun r => r.id == repoId) = some repo)
    (htok : repo.githubAccessToken = some tok)
    (hrun : syncRepoPullRequestsFromGithub repoId github now db = Except.ok (db', sched)) :
    ∃ db₁, syncAll repo github now (openPullRequests github) db = Except.ok db₁ ∧
      db' = pruneClosedPullRequestsForRepo repoId (openPrNumbersOf github) db₁ ∧
      sched = (if computeChanged (existingPrNumbers db repoId) (openPrNumbersOf github)
        then [repoId] else []) := by
  unfold syncRepoPullRequestsFromGithub at hrun
  simp only [hfind, htok] at hrun
  obtain ⟨db₁, h1, h2⟩ := bind_eq_ok hrun
  injection h2 with h3
  injection h3 with h4 h5
  exact ⟨db₁, h1, h4.symm, h5.symm⟩

/-- Claim C8: in every completed sync cycle for a configured repository, the
Downstream Trigger is scheduled iff the Change Detector computed true; in
particular nothing is scheduled when the fetched open-number set equals the
pre-cycle stored number set. -/
theorem trigger_iff_changed (repoId : Nat) (github : GithubApi) (now : Nat) (db db' : DB)
    (sched : List Nat) (repo : RepoRow) (tok : String)
    (hfind : db.repos.find? (fun r => r.id == repoId) = some repo)
    (htok : repo.githubAccessToken = some tok)
    (hrun : syncRepoPullRequestsFromGithub repoId github now db = Except.ok (db', sched)) :
    (sched ≠ [] ↔
        computeChanged (existingPrNumbers db repoId) (openPrNumbersOf github) = true) ∧
      (sched = [repoId] ↔
        computeChanged (existingPrNumbers db repoId) (openPrNumbersOf github) = true) ∧
      ((existingPrNumbers db repoId).toFinset = (openPrNumbersOf github).toFinset →
        sched = []) := by
  obtain ⟨db₁, _, _, hsched⟩ := syncRepo_unfold hfind htok hrun
  subst hsched
  cases hc : computeChanged (existingPrNumbers db repoId) (openPrNumbersOf github)
  · refine ⟨?_, ?_, ?_⟩
    · simp [hc]
    · simp [hc]
    · intro _
      simp [hc]
  · refine ⟨?_, ?_, ?_⟩
    · simp [hc]
    · simp [hc]
    · intro hfin
      have hfalse := (computeChanged_eq_false_iff _ _).2 hfin
      rw [hc] at hfalse
      cases hfalse

/-- An open fetched pull request used in the full-cycle witnesses. -/
def wPrOpenA : GithubPR :=
  ⟨31, 12, some "t", none, "open", 0, none, none, some ⟨7, "alice", some "Alice", none⟩,
    some 1, some 1, some 1⟩

/-- The GitHub responses for the full-cycle witnesses: one open PR. -/
def wApi : GithubApi :=
  { listPullRequests := [wPrOpenA]
    getPullRequest := fun _ => wPrOpenA }

/-- The full cycle's output on the witness store. -/
def wCycleOut : DB × List Nat :=
  match syncRepoPullRequestsFromGithub 0 wApi 6 wDb with
  | Except.ok v => v
  | Except.error _ => (wDb, [])

/-- Claim C8 witness: the concrete cycle fetches an open PR the store did
not know, so the detector fires and exactly one workflow is scheduled. -/
theorem trigger_iff_changed_witness :
    (wCycleOut.2 ≠ [] ↔
        computeChanged (existingPrNumbers wDb 0) (openPrNumbersOf wApi) = true) ∧
      (wCycleOut.2 = [0] ↔
        computeChanged (existingPrNumbers wDb 0) (openPrNumbersOf wApi) = true) ∧
      ((existingPrNumbers wDb 0).toFinset = (openPrNumbersOf wApi).toFinset →
        wCycleOut.2 = []) :=
  trigger_iff_changed 0 wApi 6 wDb wCycleOut.1 wCycleOut.2 wRepo "tok" rfl rfl rfl

/-! ### Claim C2: the mirror invariant -/

/-- Invariant of the reconcile loop: when the store resolves the repo's
external id to the repo row itself and every detail fetch of a listed open
PR reports the same number, the open state and no merge timestamp, a
completed loop leaves the repository table untouched, keeps pull-request
ids well-formed, stores exactly one open row per processed (repo, number)
key, and leaves every unprocessed key of that repository unchanged. -/
theorem syncAll_invariant (repo : RepoRow) (github : GithubApi) (now : Nat) :
    ∀ (l : List GithubPR) (db db₁ : DB),
      db.repos.filter (fun r => r.githubRepoId == repo.githubRepoId) = [repo] →
      ((db.pullRequests.map PRRow.id).Nodup ∧
        ∀ i ∈ db.pullRequests.map PRRow.id, i < db.nextId) →
      (∀ pr ∈ l, (github.getPullRequest pr.number).number = pr.number ∧
        (github.getPullRequest pr.number).state = "open" ∧
        (github.getPullRequest pr.number).merged_at = none) →
      syncAll repo github now l db = Except.ok db₁ →
      (db₁.repos = db.repos ∧
        ((db₁.pullRequests.map PRRow.id).Nodup ∧
          ∀ i ∈ db₁.pullRequests.map PRRow.id, i < db₁.nextId) ∧
        (∀ n ∈ l.map GithubPR.number,
          ∃ e, db₁.pullRequests.filter
              (fun r => r.repoId == repo.id && r.prNumber == n) = [e] ∧
            e.status = PrStatus.opened) ∧
        (∀ n, n ∉ l.map GithubPR.number →
          db₁.pullRequests.filter (fun r => r.repoId == repo.id && r.prNumber == n) =
            db.pullRequests.filter (fun r => r.repoId == repo.id && r.prNumber == n))) := by
  intro l
  induction l with
  | nil =>
      intro db db₁ huniq hwfP hdet h
      have h' : Except.ok db = Except.ok db₁ := h
      injection h' with h1
      subst h1
      refine ⟨rfl, hwfP, ?_, fun n _ => rfl⟩
      intro n hn
      cases hn
  | cons pr rest ih =>
      intro db db₁ huniq hwfP hdet h
      obtain ⟨v, hcore, hrest⟩ := bind_eq_ok h
      obtain ⟨db₂, res⟩ := v
      have hrest' : syncAll repo github now rest db₂ = Except.ok db₁ := hrest
      obtain ⟨hdetn, hdets, hdetm⟩ := hdet pr (List.mem_cons_self _ _)
      rcases syncPullRequestCore_cases hcore with ⟨hnil, _, _⟩ |
        ⟨repoRow, cs, nid1, cid, prs, nid2, prId, rcs, nid3, hfRow, h1, h2, h3, hdb₂, hres⟩
      · have hnil' : db.repos.filter (fun r => r.githubRepoId == repo.githubRepoId) = [] :=
          hnil
        rw [huniq] at hnil'
        cases hnil'
      · have hfRow' : db.repos.filter (fun r => r.githubRepoId == repo.githubRepoId) =
            [repoRow] := hfRow
        rw [huniq] at hfRow'
        injection hfRow' with hrowEq _
        subst hrowEq
        obtain ⟨hndP, hbdP⟩ := hwfP
        have hbd1 : ∀ i ∈ db.pullRequests.map PRRow.id, i < nid1 := fun i hi =>
          lt_of_lt_of_le (hbdP i hi) (upsertContributorT_mono h1)
        -- facts about the upserted row
        rcases upsertPRT_key_filter hndP hbd1 h2 with ⟨e', hkey, _, _, _, hst, _⟩
        have hkey' : prs.filter (fun r => r.repoId == repo.id &&
            r.prNumber == (github.getPullRequest pr.number).number) = [e'] := hkey
        rw [hdetn] at hkey'
        have hstatus : e'.status = PrStatus.opened := by
          rw [hst, prStatusOf_buildSyncArgs, hdetm, hdets]
          rfl
        -- step bookkeeping for the tail run
        rcases upsertPRT_spec hndP hbd1 h2 with
          ⟨_, _, _, _, _, _, _, _, _, _, _, _, _, hndP', hbdP'⟩
        have hm3 := upsertRepoContributorT_mono h3
        have hrepos₂ : db₂.repos = db.repos := by
          rw [hdb₂]
        have hprs₂ : db₂.pullRequests = prs := by
          rw [hdb₂]
        have hnext₂ : db₂.nextId = nid3 := by
          rw [hdb₂]
        have huniq₂ : db₂.repos.filter (fun r => r.githubRepoId == repo.githubRepoId) =
            [repo] := by
          rw [hrepos₂]
          exact huniq
        have hwfP₂ : (db₂.pullRequests.map PRRow.id).Nodup ∧
            ∀ i ∈ db₂.pullRequests.map PRRow.id, i < db₂.nextId := by
          rw [hprs₂, hnext₂]
          exact ⟨hndP', fun i hi => lt_of_lt_of_le (hbdP' i hi) hm3⟩
        have hdet₂ : ∀ q ∈ rest, (github.getPullRequest q.number).number = q.number ∧
            (github.getPullRequest q.number).state = "open" ∧
            (github.getPullRequest q.number).merged_at = none := fun q hq =>
          hdet q (List.mem_cons_of_mem _ hq)
        obtain ⟨hrepos₁, hwfP₁, hproc₁, hframe₁⟩ := ih db₂ db₁ huniq₂ hwfP₂ hdet₂ hrest'
        refine ⟨by rw [hrepos₁, hrepos₂], hwfP₁, ?_, ?_⟩
        · intro n hn
          by_cases hnr : n ∈ rest.map GithubPR.number
          · exact hproc₁ n hnr
          · have hnpr : n = pr.number := by
              rcases List.mem_map.1 hn with ⟨q, hq, hqn⟩
              rcases List.mem_cons.1 hq with hq | hq
              · rw [← hqn, hq]
              · exact absurd (List.mem_map.2 ⟨q, hq, hqn⟩) hnr
            subst hnpr
            refine ⟨e', ?_, hstatus⟩
            rw [hframe₁ _ hnr, hprs₂]
            exact hkey'
        · intro n hn
          have hnr : n ∉ rest.map GithubPR.number := fun hmem =>
            hn (by simpa using Or.inr hmem)
          have hne : n ≠ pr.number := fun heq =>
            hn (by simp [heq])
          rw [hframe₁ n hnr, hprs₂]
          apply upsertPRT_other_filter hndP h2
          intro r hr hnum
          have hnum' : r.prNumber = pr.number := by
            rw [← hdetn]
            exact hnum
          have : (r.prNumber == n) = false := by
            simp [hnum']
            omega
          simp [this]

/-- The numbers of the pull-request rows stored for a repository and marked
open — the claim's measurement of the store. -/
def storedOpenNumbers (db : DB) (repoId : Nat) : List Nat :=
  (db.pullRequests.filter
    (fun pr => pr.repoId == repoId && decide (pr.status = PrStatus.opened))).map
    PRRow.prNumber

/-- Membership in the stored-open-number list, spelled out. -/
theorem mem_storedOpenNumbers {db : DB} {repoId n : Nat} :
    n ∈ storedOpenNumbers db repoId ↔
      ∃ row ∈ db.pullRequests, row.repoId = repoId ∧ row.status = PrStatus.opened ∧
        row.prNumber = n := by
  simp only [storedOpenNumbers, List.mem_map, List.mem_filter, Bool.and_eq_true,
    beq_iff_eq, decide_eq_true_eq]
  constructor
  · rintro ⟨row, ⟨hmem, hrep, hst⟩, hn⟩
    exact ⟨row, hmem, hrep, hst, hn⟩
  · rintro ⟨row, hmem, hrep, hst, hn⟩
    exact ⟨row, ⟨hmem, hrep, hst⟩, hn⟩

/-- Claim C2: after a completed sync cycle for a configured repository
(where the detail fetch of each listed open PR reports the same number, the
open state and no merge timestamp — the picture of an upstream that is
stable during the cycle), the set of locally stored open pull-request
numbers of that repository equals exactly the fetched open-PR-number set:
every stored row of the repository is open with a fetched number, and every
fetched number is stored open. -/
theorem mirror_invariant (repoId : Nat) (github : GithubApi) (now : Nat) (db db' : DB)
    (sched : List Nat) (repo : RepoRow) (tok : String)
    (hwf : WFIds db)
    (hfind : db.repos.find? (fun r => r.id == repoId) = some repo)
    (huniq : db.repos.filter (fun r => r.githubRepoId == repo.githubRepoId) = [repo])
    (htok : repo.githubAccessToken = some tok)
    (hdet : ∀ pr ∈ openPullRequests github,
      (github.getPullRequest pr.number).number = pr.number ∧
      (github.getPullRequest pr.number).state = "open" ∧
      (github.getPullRequest pr.number).merged_at = none)
    (hrun : syncRepoPullRequestsFromGithub repoId github now db = Except.ok (db', sched)) :
    (storedOpenNumbers db' repoId).toFinset = (openPrNumbersOf github).toFinset ∧
      (∀ row ∈ db'.pullRequests, row.repoId = repoId →
        row.status = PrStatus.opened ∧ row.prNumber ∈ openPrNumbersOf github) ∧
      (∀ n ∈ openPrNumbersOf github,
        ∃ row ∈ db'.pullRequests, row.repoId = repoId ∧ row.status = PrStatus.opened ∧
          row.prNumber = n) := by
  obtain ⟨db₁, hsync, hprune, _⟩ := syncRepo_unfold hfind htok hrun
  have hrid : repo.id = repoId := by
    have := List.find?_some hfind
    simpa using this
  obtain ⟨hrepos₁, hwfP₁, hproc₁, hframe₁⟩ :=
    syncAll_invariant repo github now (openPullRequests github) db db₁ huniq
      ⟨hwf.2.1.1, hwf.2.1.2⟩ hdet hsync
  have hsub : ∀ row ∈ db'.pullRequests, row.repoId = repoId →
      row.status = PrStatus.opened ∧ row.prNumber ∈ openPrNumbersOf github := by
    intro row hrow hrep
    rw [hprune] at hrow
    have hrow' := List.mem_filter.1 hrow
    obtain ⟨hmem₁, hkeep⟩ := hrow'
    have hnum : row.prNumber ∈ openPrNumbersOf github := by
      rw [hrep] at hkeep
      simp only [beq_self_eq_true, Bool.not_true, Bool.false_or] at hkeep
      simpa using hkeep
    refine ⟨?_, hnum⟩
    rcases hproc₁ row.prNumber hnum with ⟨e, hfil, hst⟩
    have hrowfil : row ∈ db₁.pullRequests.filter
        (fun r => r.repoId == repo.id && r.prNumber == row.prNumber) := by
      rw [List.mem_filter]
      exact ⟨hmem₁, by simp [hrep, hrid]⟩
    rw [hfil] at hrowfil
    rw [List.mem_singleton.1 hrowfil]
    exact hst
  refine ⟨?_, hsub, ?_⟩
  · ext a
    simp only [List.mem_toFinset]
    rw [mem_storedOpenNumbers]
    constructor
    · rintro ⟨row, hmem, hrep, _, hn⟩
      rcases hsub row hmem hrep with ⟨_, hnum⟩
      rw [← hn]
      exact hnum
    · intro ha
      rcases hproc₁ a ha with ⟨e, hfil, hst⟩
      have hefil : e ∈ db₁.pullRequests.filter
          (fun r => r.repoId == repo.id && r.prNumber == a) := by
        rw [hfil]
        exact List.mem_singleton_self e
      obtain ⟨hemem, hekey⟩ := List.mem_filter.1 hefil
      simp only [Bool.and_eq_true, beq_iff_eq] at hekey
      refine ⟨e, ?_, by rw [hekey.1, hrid], hst, hekey.2⟩
      rw [hprune]
      simp only [pruneClosedPullRequestsForRepo]
      rw [List.mem_filter]
      refine ⟨hemem, ?_⟩
      have : e.prNumber ∈ openPrNumbersOf github := by
        rw [hekey.2]
        exact ha
      simp [this]
  · intro n hn
    rcases hproc₁ n hn with ⟨e, hfil, hst⟩
    have hefil : e ∈ db₁.pullRequests.filter
        (fun r => r.repoId == repo.id && r.prNumber == n) := by
      rw [hfil]
      exact List.mem_singleton_self e
    obtain ⟨hemem, hekey⟩ := List.mem_filter.1 hefil
    simp only [Bool.and_eq_true, beq_iff_eq] at hekey
    refine ⟨e, ?_, by rw [hekey.1, hrid], hst, hekey.2⟩
    rw [hprune]
    simp only [pruneClosedPullRequestsForRepo]
    rw [List.mem_filter]
    refine ⟨hemem, ?_⟩
    have : e.prNumber ∈ openPrNumbersOf github := by
      rw [hekey.2]
      exact hn
    simp [this]

/-- Claim C2 witness: the concrete completed cycle on the witness store
mirrors the fetched open set exactly. -/
theorem mirror_invariant_witness :
    (storedOpenNumbers wCycleOut.1 0).toFinset = (openPrNumbersOf wApi).toFinset ∧
      (∀ row ∈ wCycleOut.1.pullRequests, row.repoId = 0 →
        row.status = PrStatus.opened ∧ row.prNumber ∈ openPrNumbersOf wApi) ∧
      (∀ n ∈ openPrNumbersOf wApi,
        ∃ row ∈ wCycleOut.1.pullRequests, row.repoId = 0 ∧
          row.status = PrStatus.opened ∧ row.prNumber = n) :=
  mirror_invariant 0 wApi 6 wDb wCycleOut.1 wCycleOut.2 wRepo "tok" (by decide) rfl
    (by decide) rfl (by decide) rfl

end Dotflox
